import Mathlib

/-!
# Parkinsonian-Tremor-Detector: verification development

A shallow embedding of the tremor glove firmware: the `MovingAverage`
template (`lib/MovingAverage/MovingAverage.h`), the hit-testable regions
(`lib/GUI/Region.h`), the touch dispatcher (`lib/GUI/GUI.h`) and the
frequency pipeline of `src/main.cpp`.

Conventions of the embedding.
* The element type `T` of `MovingAverage` is instantiated at `float`, as in
  `main.cpp`; a `float` value is the rational it represents, and the `float`
  operations that produce a returned value are rounded by a parameter `fl`.
* C arrays are lists of their declared length.  An access outside the array
  is undefined behaviour in C++ and is modelled as failure (`none`).
* `uint16_t` values are naturals below `65536`; arithmetic on them is done in
  `int` after integer promotion, modelled by `Int` wrapped to 32 bits.
* Calls into the LCD driver are recorded as a list of `LcdOp`.
-/

namespace TrmrGlv

/-! ## MovingAverage -/

/-- The fields of `template <class T, uint8_t ARRAY_LEN> class MovingAverage`.
`window` is the C array `T window[ARRAY_LEN]`; `size` and `index` are `uint8_t`
and never exceed `WINDOW_SIZE ≤ 255`, so no wrap-around of theirs is reachable. -/
structure MovingAverage where
  WINDOW_SIZE : Nat
  window : List ℚ
  size : Nat
  index : Nat
  sum : ℚ
  deriving DecidableEq, Repr

namespace MovingAverage

/-- A freshly constructed `MovingAverage<T, K>`: `window = {0}`, `size = 0`,
`index = 0`, `sum = 0`. -/
def fresh (K : Nat) : MovingAverage :=
  { WINDOW_SIZE := K, window := List.replicate K 0, size := 0, index := 0, sum := 0 }

/-- Embedding of `window[index]` as an rvalue: fails outside the array. -/
def readSlot (m : MovingAverage) : Option ℚ :=
  m.window.get? m.index

/-- Embedding of `window[index] = v`: fails outside the array. -/
def writeSlot (m : MovingAverage) (v : ℚ) : Option MovingAverage :=
  if m.index < m.window.length then
    some { m with window := m.window.set m.index v }
  else
    none

/-- Embedding of `void update(T new_value)`.  The values are stored unchanged;
the running `sum`, which no other member function reads, is kept as the exact
rational. -/
def update (m : MovingAverage) (new_value : ℚ) : Option MovingAverage := do
  -- Fill up window first, otherwise replace value
  let m1 ← if m.size < m.WINDOW_SIZE then
      some { m with size := m.size + 1 }
    else
      (m.readSlot).map (fun old => { m with sum := m.sum - old })
  let m2 := { m1 with sum := m1.sum + new_value }
  let m3 ← m2.writeSlot new_value
  -- Set index to next data slot, wrapping around to oldest
  if m3.index < m3.WINDOW_SIZE then
    some { m3 with index := m3.index + 1 }
  else
    some { m3 with index := 0 }

/-- Embedding of the loop `for (...) summation += window[i];` of `getAverage`,
from `T summation = 0` over the slots `ws`: every `+=` is an addition in `T`
(`float`), rounded by `fl`. -/
def accumulate (fl : ℚ → ℚ) (ws : List ℚ) : ℚ :=
  ws.foldl (fun summation w => fl (summation + w)) 0

/-- Embedding of `T getAverage()`: `0` when `size <= 0`, otherwise
`static_cast<T>(summation / static_cast<float>(size))`, where `summation` is
accumulated over `window[0 .. size-1]`; the conversion of `size` and the
division are `float` operations rounded by `fl`.  `size` never exceeds the
array length, so the reads of the loop stay inside the array. -/
def getAverage (fl : ℚ → ℚ) (m : MovingAverage) : ℚ :=
  if m.size ≤ 0 then 0
  else fl (accumulate fl (m.window.take m.size) / fl (m.size : ℚ))

/-- A sequence of `update` calls, left to right. -/
def updates : MovingAverage → List ℚ → Option MovingAverage
  | m, [] => some m
  | m, v :: vs => (m.update v).bind (fun m1 => updates m1 vs)

/-- The state of a window of capacity `K` after the values `pre` have been
inserted into the slots `0 .. pre.length - 1`, the other slots still zero. -/
def warm (K : Nat) (pre : List ℚ) : MovingAverage :=
  { WINDOW_SIZE := K, window := pre ++ List.replicate (K - pre.length) 0,
    size := pre.length, index := pre.length, sum := pre.sum }

/-- Embedding of `window[i] = 0`: fails outside the array. -/
def zeroSlot (w : List ℚ) (i : Nat) : Option (List ℚ) :=
  if i < w.length then some (w.set i 0) else none

/-- Embedding of the loop `for (int i = 0; i < n; i++) window[i] = 0;`. -/
def zeroSlots (w : List ℚ) (n : Nat) : Option (List ℚ) :=
  (List.range n).foldlM zeroSlot w

/-- Embedding of `void clear()`: the loop over `i < WINDOW_SIZE`, then
`size = 0`.  Neither `index` nor `sum` is assigned. -/
def clear (m : MovingAverage) : Option MovingAverage :=
  (zeroSlots m.window m.WINDOW_SIZE).map (fun w => { m with window := w, size := 0 })

end MovingAverage

/-! ## Integer promotion -/

/-- The value a 32-bit `int` holds for the mathematical result `z`
(two's-complement wrap-around). -/
def toInt32 (z : Int) : Int :=
  (z + 2147483648) % 4294967296 - 2147483648

/-- Conversion of an `int` to `uint16_t`. -/
def toUInt16 (z : Int) : Nat :=
  (z % 65536).toNat

/-- The range of `uint16_t`. -/
def isUInt16 (n : Nat) : Prop := n < 65536

instance (n : Nat) : Decidable (isUInt16 n) := by
  unfold isUInt16; infer_instance

/-! ## Region

Only the geometry of a region is embedded; colours, border and label do not
take part in hit testing. -/

/-- Geometry of `class RectRegion`: `position_x`, `position_y` (top-left corner),
`width`, `height`, all `uint16_t`. -/
structure RectRegion where
  position_x : Nat
  position_y : Nat
  width : Nat
  height : Nat
  deriving DecidableEq, Repr

/-- Geometry of `class EllipseRegion`: `position_x`, `position_y` (centre),
`radius_x`, `radius_y`, all `uint16_t`. -/
structure EllipseRegion where
  position_x : Nat
  position_y : Nat
  radius_x : Nat
  radius_y : Nat
  deriving DecidableEq, Repr

/-- All fields of the rectangle are `uint16_t` values. -/
def RectRegion.wf (r : RectRegion) : Prop :=
  isUInt16 r.position_x ∧ isUInt16 r.position_y ∧ isUInt16 r.width ∧ isUInt16 r.height

/-- All fields of the ellipse are `uint16_t` values. -/
def EllipseRegion.wf (e : EllipseRegion) : Prop :=
  isUInt16 e.position_x ∧ isUInt16 e.position_y ∧ isUInt16 e.radius_x ∧ isUInt16 e.radius_y

instance (r : RectRegion) : Decidable r.wf := by
  unfold RectRegion.wf; infer_instance

instance (e : EllipseRegion) : Decidable e.wf := by
  unfold EllipseRegion.wf; infer_instance

/-- Embedding of `RectRegion::isWithin(uint16_t x, uint16_t y)`:
`(x >= position_x && x <= position_x + width) && (y >= position_y && y <= position_y + height)`,
the operands promoted to `int`. -/
def RectRegion.isWithin (r : RectRegion) (x y : Nat) : Bool :=
  (decide ((x : Int) ≥ (r.position_x : Int))
    && decide ((x : Int) ≤ toInt32 ((r.position_x : Int) + (r.width : Int))))
  && (decide ((y : Int) ≥ (r.position_y : Int))
    && decide ((y : Int) ≤ toInt32 ((r.position_y : Int) + (r.height : Int))))

/-- Embedding of `EllipseRegion::isWithin(uint16_t x, uint16_t y)`:
`(x >= position_x - radius_x && x <= position_x + radius_x) &&
 (y >= position_y - radius_y && y <= position_y + radius_y)`,
the operands promoted to `int`. -/
def EllipseRegion.isWithin (e : EllipseRegion) (x y : Nat) : Bool :=
  (decide ((x : Int) ≥ toInt32 ((e.position_x : Int) - (e.radius_x : Int)))
    && decide ((x : Int) ≤ toInt32 ((e.position_x : Int) + (e.radius_x : Int))))
  && (decide ((y : Int) ≥ toInt32 ((e.position_y : Int) - (e.radius_y : Int)))
    && decide ((y : Int) ≤ toInt32 ((e.position_y : Int) + (e.radius_y : Int))))

/-- A `Region*`: one of the two concrete subclasses of the abstract `Region`. -/
inductive Region where
  | rect (r : RectRegion)
  | ellipse (e : EllipseRegion)
  deriving DecidableEq, Repr

/-- Virtual dispatch of `Region::isWithin`. -/
def Region.isWithin : Region → Nat → Nat → Bool
  | .rect r, x, y => r.isWithin x y
  | .ellipse e, x, y => e.isWithin x y

/-! ## GUI -/

/-- One call into the LCD driver or the scheduler made by `GUI::update`. -/
inductive LcdOp where
  | drawTitle
  | draw (r : Region)
  | fill (r : Region)
  | sleep (ms : Nat)
  | clear
  | drawRect (x y w h : Nat)
  deriving DecidableEq, Repr

/-- The regions passed to `draw`, in the order of the calls. -/
def drawn : List LcdOp → List Region
  | [] => []
  | .draw r :: ops => r :: drawn ops
  | _ :: ops => drawn ops

/-- Embedding of `class State`: `state_id`, `button`, `regions`. -/
structure State where
  state_id : Int
  button : Region
  regions : List Region
  deriving DecidableEq, Repr

/-- Embedding of `State::operator<`, the order used by `sort`. -/
def State.lt (a b : State) : Bool :=
  decide (a.state_id < b.state_id)

/-- Insertion of one state before the first state it is smaller than. -/
def insertState (s : State) : List State → List State
  | [] => [s]
  | t :: ts => if s.lt t then s :: t :: ts else t :: insertState s ts

/-- Embedding of `sort(states.begin(), states.end())` as an insertion sort with
`State::operator<`.  `std::sort` is a library routine; on pairwise distinct
ids every sorting algorithm returns the same sequence. -/
def sortStates : List State → List State
  | [] => []
  | s :: ss => insertState s (sortStates ss)

/-- The touchscreen report `TS_StateTypeDef`: `TouchDetected`, `X`, `Y`
(`X` and `Y` are `uint16_t`; `TouchDetected` is used as a truth value). -/
structure TS_StateTypeDef where
  TouchDetected : Bool
  X : Nat
  Y : Nat
  deriving DecidableEq, Repr

/-- The fields of `class GUI` the dispatcher reads and writes. -/
structure GUI where
  TS_State : TS_StateTypeDef
  touch_x : Nat
  touch_y : Nat
  state : Int
  states : List State
  deriving DecidableEq, Repr

/-- The constant `SCREEN_YSIZE`. -/
def SCREEN_YSIZE : Int := 320

/-- The constant `SCREEN_XSIZE`. -/
def SCREEN_XSIZE : Int := 240

/-- The member `backButton`, built by the constructor as
`backButton(54, 30, 44, 24, ...)` and never assigned afterwards. -/
def backButton : EllipseRegion :=
  { position_x := 54, position_y := 30, radius_x := 44, radius_y := 24 }

namespace GUI

/-- State after the constructor `GUI(string _title)`: `touch_x = 0`,
`touch_y = 0`, `state = -1`, no states.  `TS_State` has no initialiser, so its
content is a parameter. -/
def new (ts0 : TS_StateTypeDef) : GUI :=
  { TS_State := ts0, touch_x := 0, touch_y := 0, state := -1, states := [] }

/-- Embedding of `void addState(int state_id, Region* button, std::vector<Region*> ui)`. -/
def addState (g : GUI) (state_id : Int) (button : Region) (ui : List Region) : GUI :=
  { g with states := sortStates (g.states ++ [State.mk state_id button ui]) }

/-- Embedding of `bool getTouchEvent(void)`; `report` is what `ts.GetState`
stores into `TS_State`. -/
def getTouchEvent (g : GUI) (report : TS_StateTypeDef) : Bool × GUI :=
  let g1 := { g with TS_State := report }
  -- If coordinates are different, this is a new touch event
  if (g1.TS_State.X : Int) ≠ (g1.touch_x : Int)
      ∧ toInt32 (SCREEN_YSIZE - (g1.TS_State.Y : Int)) ≠ (g1.touch_y : Int) then
    (true, { g1 with touch_x := g1.TS_State.X,
                     touch_y := toUInt16 (toInt32 (SCREEN_YSIZE - (g1.TS_State.Y : Int))) })
  else
    (false, g1)

/-- One iteration of the loop over `states` in the menu branch of `update`. -/
def menuStep (acc : GUI × List LcdOp) (s : State) : GUI × List LcdOp :=
  let g := acc.1
  let log := acc.2 ++ [LcdOp.draw s.button]
  -- If touching a menu option, start the corresponding action
  if g.TS_State.TouchDetected && s.button.isWithin g.touch_x g.touch_y then
    ({ g with touch_x := 0, touch_y := 0, state := s.state_id },
      log ++ [LcdOp.fill s.button, LcdOp.sleep 500, LcdOp.clear, LcdOp.drawRect 0 0 240 320])
  else
    (g, log)

/-- Embedding of `states[state]`: the `int` index is converted to `size_t`, so a
negative index is as far outside the vector as a too large one. -/
def activeState (g : GUI) : Option State :=
  if 0 ≤ g.state then g.states.get? g.state.toNat else none

/-- Embedding of `void update(void)`: the new dispatcher state and the driver
calls made, or `none` when `states[state]` is outside the vector. -/
def update (g : GUI) : Option (GUI × List LcdOp) :=
  if g.state = -1 then
    -- On MAIN menu screen
    some (g.states.foldl menuStep (g, [LcdOp.drawTitle]))
  else
    -- Inside a STATE
    match g.activeState with
    | none => none
    | some s =>
      let log := s.regions.map LcdOp.draw ++ [LcdOp.draw (Region.ellipse backButton)]
      -- Check if we can go back to menu state
      if g.TS_State.TouchDetected && backButton.isWithin g.touch_x g.touch_y then
        some ({ g with touch_x := 0, touch_y := 0, state := -1 },
          log ++ [LcdOp.fill (Region.ellipse backButton), LcdOp.sleep 500, LcdOp.clear,
                  LcdOp.drawRect 0 0 240 320])
      else
        some (g, log)

/-- A sequence of `addState` calls, left to right. -/
def addStates (g : GUI) (calls : List State) : GUI :=
  calls.foldl (fun acc s => acc.addState s.state_id s.button s.regions) g

/-- The dispatcher states reachable from a newly constructed `GUI` by calls of
`addState` (with an id not registered yet), `getTouchEvent` and `update`. -/
inductive Reachable : GUI → Prop where
  | init (ts0 : TS_StateTypeDef) : Reachable (GUI.new ts0)
  | addState {g : GUI} (state_id : Int) (button : Region) (ui : List Region) :
      Reachable g → (∀ s ∈ g.states, s.state_id ≠ state_id) →
      Reachable (g.addState state_id button ui)
  | getTouchEvent {g : GUI} (report : TS_StateTypeDef) :
      Reachable g → Reachable (g.getTouchEvent report).2
  | update {g : GUI} {r : GUI × List LcdOp} :
      Reachable g → g.update = some r → Reachable r.1

end GUI

/-! ## Classification and frequency estimate (`main.cpp`) -/

/-- The four branches of the classification in `main`, named by the label drawn
(`"HIGH"`, `"MID"`, `"LOW"`, `"N/A"`). -/
inductive Band where
  | HIGH
  | MID
  | LOW
  | UNCLASSIFIED
  deriving DecidableEq, Repr

/-- Embedding of the `if / else if` chain of the `TREMOR_DETECTION` case, as a
function of `f = moving_avg_freq.getAverage()`. -/
def classify (f : ℚ) : Band :=
  if f ≥ 5 ∧ f ≤ 6 then Band.HIGH
  else if f ≥ 4 ∧ f < 5 then Band.MID
  else if f ≥ 3 ∧ f < 4 then Band.LOW
  else Band.UNCLASSIFIED

/-- The constant `FFT_SIZE`. -/
def FFT_SIZE : Nat := 256

/-- The constant `SAMPLING_FREQ`. -/
def SAMPLING_FREQ : Nat := 30

/-- A rational that an IEEE binary32 `float` represents: `m * 2^e` with a
24-bit significand and an exponent in the binary32 range. -/
def isBinary32 (q : ℚ) : Prop :=
  ∃ m e : Int, m.natAbs < 2 ^ 24 ∧ -149 ≤ e ∧ e ≤ 104 ∧ q = (m : ℚ) * (2 : ℚ) ^ e

/-- A rounding of real results to `float`: every representable value is
returned unchanged. -/
def IsRounding (fl : ℚ → ℚ) : Prop :=
  ∀ q, isBinary32 q → fl q = q

/-- Embedding of the last step of `float fourierTransform(void)`:
`static_cast<float>(fft_maxIndex) * (static_cast<float>(SAMPLING_FREQ) / FFT_SIZE)`.
`fft_maxIndex` is the index stored by `arm_max_f32`; `fl` rounds every
conversion and operation to `float`. -/
def fourierTransform (fl : ℚ → ℚ) (fft_maxIndex : Nat) : ℚ :=
  fl (fl (fft_maxIndex : ℚ) * fl (fl (SAMPLING_FREQ : ℚ) / fl (FFT_SIZE : ℚ)))

/-! ## Sampling (`fillFFTWindow`) -/

/-- The globals `fft_input` and `velocity_xyz` written by `fillFFTWindow`,
together with the number of `sequential_read` calls made so far. -/
structure SampleState where
  fft_input : List ℚ
  velocity_xyz : ℚ × ℚ × ℚ
  reads : Nat
  deriving DecidableEq, Repr

/-- Embedding of `fft_input[i] = v`: fails outside the array. -/
def writeSample (buf : List ℚ) (i : Nat) (v : ℚ) : Option (List ℚ) :=
  if i < buf.length then some (buf.set i v) else none

/-- One iteration of the loop of `fillFFTWindow`; `gyro k` is what the `k`-th
call of `gyro.sequential_read()` returns. -/
def fillStep (gyro : Nat → ℚ × ℚ × ℚ) (st : SampleState) (i : Nat) : Option SampleState := do
  let velocity_xyz := gyro st.reads
  let b1 ← writeSample st.fft_input (i * 2) velocity_xyz.1
  let b2 ← writeSample b1 (i * 2 + 1) 0
  some { fft_input := b2, velocity_xyz := velocity_xyz, reads := st.reads + 1 }

/-- Embedding of `void fillFFTWindow(void)`: the loop `for (int i = 0; i < FFT_SIZE; i++)`
over a new `Gyroscope` instance, starting from the given content of the globals. -/
def fillFFTWindow (gyro : Nat → ℚ × ℚ × ℚ) (fft_input : List ℚ) (velocity_xyz : ℚ × ℚ × ℚ) :
    Option SampleState :=
  (List.range FFT_SIZE).foldlM (fillStep gyro)
    { fft_input := fft_input, velocity_xyz := velocity_xyz, reads := 0 }

/-! ## Gyroscope (`sequential_read`) -/

/-- Conversion of an `int` to `int16_t` (two's complement). -/
def toInt16 (z : Int) : Int :=
  (z + 32768) % 65536 - 32768

/-- Embedding of `(((uint16_t)hi) << 8) | ((uint16_t)lo)` assigned to an
`int16_t`; `lo` and `hi` are bytes of `read_buf`. -/
def rawAxis (lo hi : Nat) : Int :=
  toInt16 (toInt32 (((hi <<< 8) ||| lo : Nat) : Int))

/-- The macro `SCALING_FACTOR`,
`(17.5f * 0.017453292519943295769236907684886f / 1000.0f)`, evaluated in
`float` with the rounding `fl`. -/
def SCALING_FACTOR (fl : ℚ → ℚ) : ℚ :=
  fl (fl (fl (175 / 10) * fl (17453292519943295769236907684886 / 10 ^ 33)) / fl 1000)

/-- Embedding of `std::array<float, 3> sequential_read()`; `read_buf` is the
receive buffer after the SPI transfer (garbage byte, x low, x high, y low,
y high, z low, z high). -/
def sequential_read (fl : ℚ → ℚ) (read_buf : Nat → Nat) : ℚ × ℚ × ℚ :=
  let raw_x := rawAxis (read_buf 1) (read_buf 2)
  let raw_y := rawAxis (read_buf 3) (read_buf 4)
  let raw_z := rawAxis (read_buf 5) (read_buf 6)
  (fl (fl (raw_x : ℚ) * SCALING_FACTOR fl),
   fl (fl (raw_y : ℚ) * SCALING_FACTOR fl),
   fl (fl (raw_z : ℚ) * SCALING_FACTOR fl))

/-! ## The menu registered by `main` -/

/-- The enumerator `TREMOR_DETECTION` of `enum STATES`. -/
def TREMOR_DETECTION : Int := 0

/-- The enumerator `FREQ_VIEW` of `enum STATES`. -/
def FREQ_VIEW : Int := 1

/-- The enumerator `INFO` of `enum STATES`. -/
def INFO : Int := 2

/-- The global `TREMOR_BUTTON`: `new EllipseRegion(120, 100, 64, 32, ...)`. -/
def TREMOR_BUTTON : Region := Region.ellipse ⟨120, 100, 64, 32⟩

/-- The global `TREMOR_UI`: one `RectRegion(0, 40, 240, 280, ...)`. -/
def TREMOR_UI : List Region := [Region.rect ⟨0, 40, 240, 280⟩]

/-- The global `FREQ_BUTTON`: `new EllipseRegion(120, 180, 64, 32, ...)`. -/
def FREQ_BUTTON : Region := Region.ellipse ⟨120, 180, 64, 32⟩

/-- The global `FREQ_UI`: one `RectRegion(0, 40, 240, 280, ...)`. -/
def FREQ_UI : List Region := [Region.rect ⟨0, 40, 240, 280⟩]

/-- The global `INFO_BUTTON`: `new EllipseRegion(120, 260, 64, 32, ...)`. -/
def INFO_BUTTON : Region := Region.ellipse ⟨120, 260, 64, 32⟩

/-- The global `INFO_UI`: one `RectRegion(0, 40, 240, 280, ...)`. -/
def INFO_UI : List Region := [Region.rect ⟨0, 40, 240, 280⟩]

/-- The dispatcher after the three `addState` calls at the start of `main`. -/
def mainGUI (ts0 : TS_StateTypeDef) : GUI :=
  (((GUI.new ts0).addState TREMOR_DETECTION TREMOR_BUTTON TREMOR_UI).addState
    FREQ_VIEW FREQ_BUTTON FREQ_UI).addState INFO INFO_BUTTON INFO_UI

/-! ## Concrete inputs -/

/-- The window of `main.cpp` (`MovingAverage<float, 3>`) after `update(2)`,
`update(4)`, `update(6)`. -/
def fullWindow246 : MovingAverage :=
  { WINDOW_SIZE := 3, window := [2, 4, 6], size := 3, index := 3, sum := 12 }

/-- A menu of two rectangular buttons: id 0 at `(100,100)` of size `50 x 50`
and id 1 at `(0,0)` of size `10 x 10`, with a touch recorded at `(120,120)`. -/
def cornerMenu : GUI :=
  { TS_State := { TouchDetected := true, X := 120, Y := 200 },
    touch_x := 120, touch_y := 120, state := -1,
    states := [ { state_id := 0, button := Region.rect ⟨100, 100, 50, 50⟩, regions := [] },
                { state_id := 1, button := Region.rect ⟨0, 0, 10, 10⟩, regions := [] } ] }

/-- A dispatcher with the single registered id 5, active, and a touch recorded
at the centre of the back button. -/
def sparseIdGUI : GUI :=
  { TS_State := { TouchDetected := true, X := 54, Y := 290 },
    touch_x := 54, touch_y := 30, state := 5,
    states := [ { state_id := 5, button := Region.rect ⟨100, 100, 50, 50⟩, regions := [] } ] }

/-- A dispatcher with the single registered id 0, active, and a touch recorded
at the centre of the back button. -/
def activeZeroGUI : GUI :=
  { TS_State := { TouchDetected := true, X := 54, Y := 290 },
    touch_x := 54, touch_y := 30, state := 0,
    states := [ { state_id := 0, button := Region.rect ⟨100, 100, 50, 50⟩,
                  regions := [Region.rect ⟨0, 40, 240, 280⟩] } ] }

/-- A dispatcher with stored touch `(50,50)`. -/
def storedTouch5050 : GUI :=
  { TS_State := { TouchDetected := false, X := 0, Y := 0 },
    touch_x := 50, touch_y := 50, state := -1, states := [] }

/-- Three registrations in the order of ids 2, 0, 1. -/
def calls201 : List State :=
  [ { state_id := 2, button := Region.ellipse ⟨120, 260, 64, 32⟩, regions := [] },
    { state_id := 0, button := Region.ellipse ⟨120, 100, 64, 32⟩, regions := [] },
    { state_id := 1, button := Region.ellipse ⟨120, 180, 64, 32⟩, regions := [] } ]

/-- A dispatcher with the registered ids 1 and 2, each with its own content
Region, and id 1 active; no touch is detected. -/
def shiftedIdGUI : GUI :=
  { TS_State := { TouchDetected := false, X := 0, Y := 0 },
    touch_x := 0, touch_y := 0, state := 1,
    states := [ { state_id := 1, button := Region.rect ⟨100, 100, 50, 50⟩,
                  regions := [Region.rect ⟨0, 40, 240, 100⟩] },
                { state_id := 2, button := Region.rect ⟨100, 200, 50, 50⟩,
                  regions := [Region.rect ⟨0, 150, 240, 100⟩] } ] }

/-- The window of capacity 3 after `update(5)`. -/
def afterUpdate5 : MovingAverage :=
  { WINDOW_SIZE := 3, window := [5, 0, 0], size := 1, index := 1, sum := 5 }

/-- The window of capacity 3 after `update(5)` and `clear()`. -/
def clearedAfter5 : MovingAverage :=
  { WINDOW_SIZE := 3, window := [0, 0, 0], size := 0, index := 1, sum := 5 }

/-- The window of capacity 3 after `update(5)`, `clear()` and `update(3)`. -/
def clearedThen3 : MovingAverage :=
  { WINDOW_SIZE := 3, window := [0, 3, 0], size := 1, index := 2, sum := 8 }

/-- The dispatcher of `main` with only the first state registered, after a
touch report at the centre of the Tremor button. -/
def tremorTouched : GUI :=
  (((GUI.new ⟨false, 0, 0⟩).addState TREMOR_DETECTION TREMOR_BUTTON TREMOR_UI).getTouchEvent
    ⟨true, 120, 220⟩).2

/-- The dispatcher `tremorTouched` after `update()`: the Tremor state is active. -/
def tremorActive : GUI :=
  { TS_State := { TouchDetected := true, X := 120, Y := 220 },
    touch_x := 0, touch_y := 0, state := 0,
    states := [ { state_id := 0, button := TREMOR_BUTTON, regions := TREMOR_UI } ] }

/-- The driver calls of the `update()` that leads from `tremorTouched` to
`tremorActive`. -/
def tremorLog : List LcdOp :=
  [LcdOp.drawTitle, LcdOp.draw TREMOR_BUTTON, LcdOp.fill TREMOR_BUTTON, LcdOp.sleep 500,
   LcdOp.clear, LcdOp.drawRect 0 0 240 320]

/-- The dispatcher of `main` with the state `FREQ_VIEW` active and no touch. -/
def freqActive : GUI :=
  { TS_State := { TouchDetected := false, X := 0, Y := 0 },
    touch_x := 0, touch_y := 0, state := 1,
    states := (mainGUI ⟨false, 0, 0⟩).states }

/-- A receive buffer whose x bytes are `0x34`, `0x12`, y bytes `0xFF`, `0xFF`
and z bytes `0x00`, `0x80`. -/
def sampleReadBuf : Nat → Nat
  | 1 => 52
  | 2 => 18
  | 3 => 255
  | 4 => 255
  | 6 => 128
  | _ => 0

/-- A stream of gyroscope readings whose X value counts the reads. -/
def countingGyro (k : Nat) : ℚ × ℚ × ℚ :=
  ((k : ℚ), 1, 2)


/-! ## Rounding to `float` -/

theorem isBinary32_of_nat (n : Nat) (h : n < 2 ^ 24) : isBinary32 (n : ℚ) :=
  ⟨n, 0, by simpa using h, by decide, by decide, by simp⟩

theorem rounding_natCast (fl : ℚ → ℚ) (hfl : IsRounding fl) (n : Nat) (h : n < 2 ^ 24) :
    fl (n : ℚ) = n :=
  hfl _ (isBinary32_of_nat n h)

/-! ## MovingAverage: warm-up and behaviour at capacity -/

namespace MovingAverage

theorem fresh_eq_warm (K : Nat) : fresh K = warm K [] := by
  simp [fresh, warm]

theorem update_warm (K : Nat) (pre : List ℚ) (v : ℚ) (h : pre.length < K) :
    (warm K pre).update v = some (warm K (pre ++ [v])) := by
  have hlen : pre.length < (pre ++ List.replicate (K - pre.length) (0 : ℚ)).length := by
    simp; omega
  have hrep : List.replicate (K - pre.length) (0 : ℚ)
      = 0 :: List.replicate (K - (pre.length + 1)) 0 := by
    have : K - pre.length = (K - (pre.length + 1)) + 1 := by omega
    rw [this, List.replicate_succ]
  simp only [update, warm, writeSlot, h, hlen, if_true, Option.bind_eq_bind, Option.some_bind,
    Option.pure_def, Option.bind_some]
  simp [hrep, List.set_append_right]

theorem updates_warm (K : Nat) (vs pre : List ℚ) (h : pre.length + vs.length ≤ K) :
    (warm K pre).updates vs = some (warm K (pre ++ vs)) := by
  induction vs generalizing pre with
  | nil => simp [updates]
  | cons v vs ih =>
    have h1 : pre.length < K := by simp at h; omega
    have h2 : (pre ++ [v]).length + vs.length ≤ K := by simp at h ⊢; omega
    simp [updates, update_warm K pre v h1, ih (pre ++ [v]) h2]

theorem accumulate_from (fl : ℚ → ℚ) (hfl : IsRounding fl) (ws : List ℚ) (acc : ℚ)
    (h : ∀ k, k ≤ ws.length → isBinary32 (acc + (ws.take k).sum)) :
    ws.foldl (fun summation w => fl (summation + w)) acc = acc + ws.sum := by
  induction ws generalizing acc with
  | nil => simp
  | cons w ws ih =>
    have h1 : fl (acc + w) = acc + w := by
      have := h 1 (by simp)
      exact hfl _ (by simpa using this)
    rw [List.foldl_cons, h1, ih (acc + w)]
    · simp [add_assoc]
    · intro k hk
      have := h (k + 1) (by simpa using hk)
      simpa [add_assoc] using this

theorem accumulate_exact (fl : ℚ → ℚ) (hfl : IsRounding fl) (ws : List ℚ)
    (h : ∀ k, k ≤ ws.length → isBinary32 ((ws.take k).sum)) :
    accumulate fl ws = ws.sum := by
  have := accumulate_from fl hfl ws 0 (by simpa using h)
  simpa [accumulate] using this

theorem warm_getAverage (fl : ℚ → ℚ) (K : Nat) (pre : List ℚ) :
    (warm K pre).getAverage fl
      = if pre.length = 0 then 0 else fl (accumulate fl pre / fl (pre.length : ℚ)) := by
  by_cases h : pre.length = 0
  · simp [getAverage, warm, h]
  · simp [getAverage, warm, h]

theorem getAverage_small_exact (fl : ℚ → ℚ) (hfl : IsRounding fl) (K : Nat) (pre : List ℚ)
    (hn : pre.length ≠ 0) (hlen : pre.length < 2 ^ 24)
    (hs : ∀ k, k ≤ pre.length → isBinary32 ((pre.take k).sum))
    (hq : isBinary32 (pre.sum / (pre.length : ℚ))) :
    (warm K pre).getAverage fl = pre.sum / (pre.length : ℚ) := by
  rw [warm_getAverage, if_neg hn, accumulate_exact fl hfl pre hs,
    rounding_natCast fl hfl _ hlen, hfl _ hq]

theorem fullWindow246_eq_warm : fullWindow246 = warm 3 [2, 4, 6] := by
  simp [fullWindow246, warm]
  norm_num

theorem isBinary32_lit (n : Nat) (q : ℚ) (hq : q = (n : ℚ)) (h : n < 2 ^ 24) : isBinary32 q := by
  rw [hq]
  exact isBinary32_of_nat n h

/-- C1 (evaluation at the failing input): with capacity 3, the updates 2, 4, 6
fill the slots 0..2 and leave the write index at 3, equal to the capacity;
the average is 4 (exactly, under every rounding to `float`).  The next
`update(8)` then accesses `window[3]`, outside the 3-element array, so no state
with buffer 4, 6, 8 and average 6 results. -/
theorem update_past_capacity_out_of_bounds :
    (fresh 3).updates [2, 4, 6] = some fullWindow246
    ∧ (∀ fl : ℚ → ℚ, IsRounding fl → fullWindow246.getAverage fl = 4)
    ∧ fullWindow246.index = fullWindow246.window.length
    ∧ fullWindow246.update 8 = none
    ∧ (fresh 3).updates [2, 4, 6, 8] = none := by
  have h1 : (fresh 3).updates [2, 4, 6] = some fullWindow246 := by
    simp [updates, update, fresh, readSlot, writeSlot, List.replicate, fullWindow246]
    norm_num
  have h2 : fullWindow246.update 8 = none := by
    simp [update, readSlot, writeSlot, fullWindow246]
  refine ⟨h1, ?_, ?_, h2, ?_⟩
  · intro fl hfl
    rw [fullWindow246_eq_warm,
      getAverage_small_exact fl hfl 3 [2, 4, 6] (by simp) (by simp) ?_ ?_]
    · norm_num
    · intro k hk
      have hk3 : k ≤ 3 := by simpa using hk
      interval_cases k
      · exact isBinary32_lit 0 _ (by simp) (by decide)
      · exact isBinary32_lit 2 _ (by simp) (by decide)
      · exact isBinary32_lit 6 _ (by norm_num) (by decide)
      · exact isBinary32_lit 12 _ (by norm_num) (by decide)
    · exact isBinary32_lit 4 _ (by norm_num) (by decide)
  · simp [fullWindow246]
  · simp [updates, update, fresh, readSlot, writeSlot, List.replicate]

/-- C2: from a freshly constructed window of capacity `K` (a `uint8_t`), any
`n ≤ K` updates with values `vs` all succeed, and `getAverage` then returns 0
when `n = 0` and otherwise the `float` quotient of the `float` sum of
`v1 .. vn` by `n`, the number of values inserted so far (not `K`), for every
rounding to `float` that keeps representable values; whenever the partial sums
and the quotient are representable this is exactly `(v1 + ... + vn) / n`. -/
theorem getAverage_warmup (fl : ℚ → ℚ) (hfl : IsRounding fl) (K : Nat) (vs : List ℚ)
    (hK : K < 256) (h : vs.length ≤ K) :
    ∃ m, (fresh K).updates vs = some m
      ∧ m.size = vs.length
      ∧ m.getAverage fl
          = (if vs.length = 0 then 0 else fl (accumulate fl vs / (vs.length : ℚ)))
      ∧ (vs.length ≠ 0 →
          (∀ k, k ≤ vs.length → isBinary32 ((vs.take k).sum)) →
          isBinary32 (vs.sum / (vs.length : ℚ)) →
          m.getAverage fl = vs.sum / (vs.length : ℚ)) := by
  have hlen : vs.length < 2 ^ 24 := by
    have : (256 : Nat) < 2 ^ 24 := by decide
    omega
  refine ⟨warm K vs, ?_, rfl, ?_, ?_⟩
  · have := updates_warm K vs [] (by simpa using h)
    simpa [fresh_eq_warm] using this
  · rw [warm_getAverage, rounding_natCast fl hfl _ hlen]
  · intro hn hs hq
    exact getAverage_small_exact fl hfl K vs hn hlen hs hq

/-- Witness of C2 with `K = 3`: no update gives the average 0, the updates 2, 4
give the average 3 (the divisor is the count 2, not the capacity 3), and the
updates 2, 4, 6 give the average 4. -/
theorem getAverage_warmup_witness :
    IsRounding id
    ∧ (∃ m, (fresh 3).updates [] = some m ∧ m.size = 0 ∧ m.getAverage id = 0)
    ∧ (∃ m, (fresh 3).updates [2, 4] = some m ∧ m.size = 2 ∧ m.getAverage id = 3)
    ∧ (∃ m, (fresh 3).updates [2, 4, 6] = some m ∧ m.size = 3 ∧ m.getAverage id = 4) := by
  have hid : IsRounding id := fun _ _ => rfl
  refine ⟨hid, ?_, ?_, ?_⟩
  · obtain ⟨m, h1, h2, h3, _⟩ := getAverage_warmup id hid 3 [] (by decide) (by decide)
    exact ⟨m, h1, by simpa using h2, by simpa using h3⟩
  · obtain ⟨m, h1, h2, h3, _⟩ := getAverage_warmup id hid 3 [2, 4] (by decide) (by decide)
    refine ⟨m, h1, by simpa using h2, ?_⟩
    rw [h3]
    simp [accumulate]
    norm_num
  · obtain ⟨m, h1, h2, h3, _⟩ := getAverage_warmup id hid 3 [2, 4, 6] (by decide) (by decide)
    refine ⟨m, h1, by simpa using h2, ?_⟩
    rw [h3]
    simp [accumulate]
    norm_num

end MovingAverage

/-! ## Classification bands -/

/-- C3: the classification selects HIGH iff `5 ≤ f ≤ 6`, MID iff `4 ≤ f < 5`,
LOW iff `3 ≤ f < 4` and UNCLASSIFIED iff `f < 3` or `f > 6`; the four ranges
are pairwise exclusive and together exhaustive; and 5.0 is HIGH, 4.999 MID,
3.0 LOW, 2.999 UNCLASSIFIED, 6.0 HIGH, 6.001 UNCLASSIFIED. -/
theorem classify_bands :
    (∀ f : ℚ,
      (classify f = Band.HIGH ↔ 5 ≤ f ∧ f ≤ 6)
      ∧ (classify f = Band.MID ↔ 4 ≤ f ∧ f < 5)
      ∧ (classify f = Band.LOW ↔ 3 ≤ f ∧ f < 4)
      ∧ (classify f = Band.UNCLASSIFIED ↔ f < 3 ∨ 6 < f)
      ∧ ((5 ≤ f ∧ f ≤ 6) ∨ (4 ≤ f ∧ f < 5) ∨ (3 ≤ f ∧ f < 4) ∨ (f < 3 ∨ 6 < f))
      ∧ ¬ ((5 ≤ f ∧ f ≤ 6) ∧ (4 ≤ f ∧ f < 5))
      ∧ ¬ ((5 ≤ f ∧ f ≤ 6) ∧ (3 ≤ f ∧ f < 4))
      ∧ ¬ ((5 ≤ f ∧ f ≤ 6) ∧ (f < 3 ∨ 6 < f))
      ∧ ¬ ((4 ≤ f ∧ f < 5) ∧ (3 ≤ f ∧ f < 4))
      ∧ ¬ ((4 ≤ f ∧ f < 5) ∧ (f < 3 ∨ 6 < f))
      ∧ ¬ ((3 ≤ f ∧ f < 4) ∧ (f < 3 ∨ 6 < f)))
    ∧ classify 5 = Band.HIGH
    ∧ classify (4999 / 1000) = Band.MID
    ∧ classify 3 = Band.LOW
    ∧ classify (2999 / 1000) = Band.UNCLASSIFIED
    ∧ classify 6 = Band.HIGH
    ∧ classify (6001 / 1000) = Band.UNCLASSIFIED := by
  have key : ∀ f : ℚ,
      (classify f = Band.HIGH ↔ 5 ≤ f ∧ f ≤ 6)
      ∧ (classify f = Band.MID ↔ 4 ≤ f ∧ f < 5)
      ∧ (classify f = Band.LOW ↔ 3 ≤ f ∧ f < 4)
      ∧ (classify f = Band.UNCLASSIFIED ↔ f < 3 ∨ 6 < f) := by
    intro f
    unfold classify
    by_cases h1 : f ≥ 5 ∧ f ≤ 6
    · rw [if_pos h1]
      obtain ⟨a, b⟩ := h1
      refine ⟨by simp [a, b], ?_, ?_, ?_⟩
      · simp; intro _; linarith
      · simp; intro _; linarith
      · simp; constructor <;> linarith
    · rw [if_neg h1]
      by_cases h2 : f ≥ 4 ∧ f < 5
      · rw [if_pos h2]
        obtain ⟨a, b⟩ := h2
        refine ⟨?_, by simp [a, b], ?_, ?_⟩
        · simp; intro _; linarith
        · simp; intro _; linarith
        · simp; constructor <;> linarith
      · rw [if_neg h2]
        by_cases h3 : f ≥ 3 ∧ f < 4
        · rw [if_pos h3]
          obtain ⟨a, b⟩ := h3
          refine ⟨?_, ?_, by simp [a, b], ?_⟩
          · simp; intro _; linarith
          · simp; intro _; linarith
          · simp; constructor <;> linarith
        · rw [if_neg h3]
          refine ⟨?_, ?_, ?_, ?_⟩
          · simpa using h1
          · simpa using h2
          · simpa using h3
          · simp
            by_contra hc
            push_neg at hc h1 h2 h3
            obtain ⟨c1, c2⟩ := hc
            by_cases c5 : 5 ≤ f
            · exact absurd (h1 c5) (not_lt.mpr c2)
            · by_cases c4 : 4 ≤ f
              · exact absurd (h2 c4) (not_le.mpr (not_le.mp c5))
              · exact absurd (h3 c1) (not_le.mpr (not_le.mp c4))
  refine ⟨?_, ?_, ?_, ?_, ?_, ?_, ?_⟩
  · intro f
    obtain ⟨k1, k2, k3, k4⟩ := key f
    refine ⟨k1, k2, k3, k4, ?_, ?_, ?_, ?_, ?_, ?_, ?_⟩
    · cases hc : classify f
      · exact Or.inl (k1.mp hc)
      · exact Or.inr (Or.inl (k2.mp hc))
      · exact Or.inr (Or.inr (Or.inl (k3.mp hc)))
      · exact Or.inr (Or.inr (Or.inr (k4.mp hc)))
    · rintro ⟨⟨a, b⟩, c, d⟩; linarith
    · rintro ⟨⟨a, b⟩, c, d⟩; linarith
    · rintro ⟨⟨a, b⟩, c | c⟩ <;> linarith
    · rintro ⟨⟨a, b⟩, c, d⟩; linarith
    · rintro ⟨⟨a, b⟩, c | c⟩ <;> linarith
    · rintro ⟨⟨a, b⟩, c | c⟩ <;> linarith
  · exact (key 5).1.mpr (by norm_num)
  · exact (key _).2.1.mpr (by norm_num)
  · exact (key 3).2.2.1.mpr (by norm_num)
  · exact (key _).2.2.2.mpr (by norm_num)
  · exact (key 6).1.mpr (by norm_num)
  · exact (key _).2.2.2.mpr (by norm_num)


/-! ## Hit tests -/

theorem toInt32_of_small (z : Int) (h1 : -2147483648 ≤ z) (h2 : z < 2147483648) :
    toInt32 z = z := by
  unfold toInt32
  omega

theorem rect_isWithin_iff (r : RectRegion) (x y : Nat) (hr : r.wf) :
    r.isWithin x y = true ↔
      (r.position_x ≤ x ∧ x ≤ r.position_x + r.width)
      ∧ (r.position_y ≤ y ∧ y ≤ r.position_y + r.height) := by
  obtain ⟨h1, h2, h3, h4⟩ := hr
  unfold isUInt16 at h1 h2 h3 h4
  have e1 : toInt32 ((r.position_x : Int) + (r.width : Int))
      = (r.position_x : Int) + (r.width : Int) := toInt32_of_small _ (by omega) (by omega)
  have e2 : toInt32 ((r.position_y : Int) + (r.height : Int))
      = (r.position_y : Int) + (r.height : Int) := toInt32_of_small _ (by omega) (by omega)
  simp only [RectRegion.isWithin, e1, e2, Bool.and_eq_true, decide_eq_true_eq]
  omega

theorem ellipse_isWithin_iff (e : EllipseRegion) (x y : Nat) (he : e.wf) :
    e.isWithin x y = true ↔
      ((e.position_x : Int) - e.radius_x ≤ x ∧ (x : Int) ≤ (e.position_x : Int) + e.radius_x)
      ∧ ((e.position_y : Int) - e.radius_y ≤ y ∧ (y : Int) ≤ (e.position_y : Int) + e.radius_y) := by
  obtain ⟨h1, h2, h3, h4⟩ := he
  unfold isUInt16 at h1 h2 h3 h4
  have e1 : toInt32 ((e.position_x : Int) + (e.radius_x : Int))
      = (e.position_x : Int) + (e.radius_x : Int) := toInt32_of_small _ (by omega) (by omega)
  have e2 : toInt32 ((e.position_y : Int) + (e.radius_y : Int))
      = (e.position_y : Int) + (e.radius_y : Int) := toInt32_of_small _ (by omega) (by omega)
  have e3 : toInt32 ((e.position_x : Int) - (e.radius_x : Int))
      = (e.position_x : Int) - (e.radius_x : Int) := toInt32_of_small _ (by omega) (by omega)
  have e4 : toInt32 ((e.position_y : Int) - (e.radius_y : Int))
      = (e.position_y : Int) - (e.radius_y : Int) := toInt32_of_small _ (by omega) (by omega)
  simp only [EllipseRegion.isWithin, e1, e2, e3, e4, Bool.and_eq_true, decide_eq_true_eq,
    ge_iff_le]

/-- C7: for a rectangle with 16-bit fields `(left, top, w, h)`, `isWithin x y`
holds iff `left ≤ x ≤ left + w` and `top ≤ y ≤ top + h`, both bounds inclusive
and the sums being the exact sums (below `2^17`, no wrap-around). -/
theorem rect_isWithin_inclusive (r : RectRegion) (x y : Nat) (hr : r.wf) :
    (r.isWithin x y = true ↔
      (r.position_x ≤ x ∧ x ≤ r.position_x + r.width)
      ∧ (r.position_y ≤ y ∧ y ≤ r.position_y + r.height))
    ∧ toInt32 ((r.position_x : Int) + (r.width : Int)) = ((r.position_x + r.width : Nat) : Int)
    ∧ toInt32 ((r.position_y : Int) + (r.height : Int)) = ((r.position_y + r.height : Nat) : Int) := by
  refine ⟨rect_isWithin_iff r x y hr, ?_, ?_⟩
  · obtain ⟨h1, _, h3, _⟩ := hr
    unfold isUInt16 at h1 h3
    rw [toInt32_of_small _ (by omega) (by omega)]; push_cast; rfl
  · obtain ⟨_, h2, _, h4⟩ := hr
    unfold isUInt16 at h2 h4
    rw [toInt32_of_small _ (by omega) (by omega)]; push_cast; rfl

/-- Witness of C7 on the rectangle `(10, 10, 100, 50)`: the corners `(10,10)`
and `(110,60)` are inside, `(9,10)` and `(111,10)` are outside. -/
theorem rect_isWithin_inclusive_witness :
    (RectRegion.mk 10 10 100 50).wf
    ∧ (RectRegion.mk 10 10 100 50).isWithin 10 10 = true
    ∧ (RectRegion.mk 10 10 100 50).isWithin 110 60 = true
    ∧ (RectRegion.mk 10 10 100 50).isWithin 9 10 = false
    ∧ (RectRegion.mk 10 10 100 50).isWithin 111 10 = false := by
  have hw : (RectRegion.mk 10 10 100 50).wf := by decide
  refine ⟨hw, ?_, ?_, ?_, ?_⟩
  · exact (rect_isWithin_inclusive _ 10 10 hw).1.mpr (by decide)
  · exact (rect_isWithin_inclusive _ 110 60 hw).1.mpr (by decide)
  · exact Bool.eq_false_iff.mpr
      (fun h => absurd ((rect_isWithin_inclusive _ 9 10 hw).1.mp h) (by decide))
  · exact Bool.eq_false_iff.mpr
      (fun h => absurd ((rect_isWithin_inclusive _ 111 10 hw).1.mp h) (by decide))

/-- C8: for an ellipse with 16-bit centre `(cx, cy)` and radii `(rx, ry)`,
`isWithin x y` holds iff `cx - rx ≤ x ≤ cx + rx` and `cy - ry ≤ y ≤ cy + ry`,
the differences taken as signed integers (so a non-positive lower bound admits
every coordinate); and the point `(149,119)` is reported inside the ellipse of
centre `(100,100)` and radii `(50,20)` although
`((x-cx)/rx)^2 + ((y-cy)/ry)^2 > 1` there. -/
theorem ellipse_isWithin_bounding_box (e : EllipseRegion) (x y : Nat) (he : e.wf) :
    (e.isWithin x y = true ↔
      ((e.position_x : Int) - e.radius_x ≤ x ∧ (x : Int) ≤ (e.position_x : Int) + e.radius_x)
      ∧ ((e.position_y : Int) - e.radius_y ≤ y ∧ (y : Int) ≤ (e.position_y : Int) + e.radius_y))
    ∧ ((e.position_x : Int) - e.radius_x ≤ 0 →
        (e.isWithin x y = true ↔
          (x : Int) ≤ (e.position_x : Int) + e.radius_x
          ∧ ((e.position_y : Int) - e.radius_y ≤ y ∧ (y : Int) ≤ (e.position_y : Int) + e.radius_y)))
    ∧ ((EllipseRegion.mk 100 100 50 20).isWithin 149 119 = true
        ∧ (((149 : ℚ) - 100) / 50) ^ 2 + (((119 : ℚ) - 100) / 20) ^ 2 > 1) := by
  refine ⟨ellipse_isWithin_iff e x y he, ?_, ?_, ?_⟩
  · intro h0
    rw [ellipse_isWithin_iff e x y he]
    omega
  · exact (ellipse_isWithin_iff _ 149 119 (by decide)).mpr (by decide)
  · norm_num

/-- Witness of C8 on the ellipse of centre `(100,100)` and radii `(50,20)` at
the point `(149,119)`. -/
theorem ellipse_isWithin_bounding_box_witness :
    (EllipseRegion.mk 100 100 50 20).wf
    ∧ (EllipseRegion.mk 100 100 50 20).isWithin 149 119 = true := by
  have hw : (EllipseRegion.mk 100 100 50 20).wf := by decide
  exact ⟨hw, (ellipse_isWithin_bounding_box _ 149 119 hw).1.mpr (by decide)⟩


/-! ## Dispatcher: menu activation, back transition, touch edge -/

/-- C4 (evaluation at the failing input): the dispatcher is in MENU, a touch is
detected, the registered ids 0 and 1 are distinct, and the recorded point
`(120,120)` lies inside the button of id 0 and outside the button of id 1.
The loop of `update` activates id 0, resets the point to `(0,0)` and goes on to
the button of id 1, which contains `(0,0)`: `update` ends with active state 1. -/
theorem update_menu_retests_reset_point :
    cornerMenu.state = -1
    ∧ cornerMenu.TS_State.TouchDetected = true
    ∧ (cornerMenu.states.map State.state_id) = [0, 1]
    ∧ (Region.rect ⟨100, 100, 50, 50⟩).isWithin cornerMenu.touch_x cornerMenu.touch_y = true
    ∧ (Region.rect ⟨0, 0, 10, 10⟩).isWithin cornerMenu.touch_x cornerMenu.touch_y = false
    ∧ (Region.rect ⟨0, 0, 10, 10⟩).isWithin 0 0 = true
    ∧ cornerMenu.update.map (fun r => (r.1.state, r.1.touch_x, r.1.touch_y)) = some (1, 0, 0) := by
  decide

theorem backButton_isWithin_iff (x y : Nat) :
    backButton.isWithin x y = true ↔ (10 ≤ x ∧ x ≤ 98) ∧ (6 ≤ y ∧ y ≤ 54) := by
  have e1 : toInt32 ((54 : Int) - 44) = 10 := by decide
  have e2 : toInt32 ((54 : Int) + 44) = 98 := by decide
  have e3 : toInt32 ((30 : Int) - 24) = 6 := by decide
  have e4 : toInt32 ((30 : Int) + 24) = 54 := by decide
  simp only [EllipseRegion.isWithin, backButton, Nat.cast_ofNat, e1, e2, e3, e4,
    Bool.and_eq_true, decide_eq_true_eq, ge_iff_le]
  omega

theorem activeState_of_index (g : GUI) (h0 : 0 ≤ g.state) (hlt : g.state < g.states.length) :
    ∃ s, g.activeState = some s := by
  have hn : g.state.toNat < g.states.length := by omega
  refine ⟨g.states.get ⟨g.state.toNat, hn⟩, ?_⟩
  simp [GUI.activeState, h0, List.get?_eq_get hn]

/-- C5 (counterexample): the active state 5 is a registered id, a touch is
detected inside the back Region, yet `states[5]` is outside the one-element
state collection and `update` does not end with the active state -1. -/
theorem update_active_sparse_id_fails :
    (∃ s ∈ sparseIdGUI.states, s.state_id = sparseIdGUI.state)
    ∧ sparseIdGUI.TS_State.TouchDetected = true
    ∧ backButton.isWithin sparseIdGUI.touch_x sparseIdGUI.touch_y = true
    ∧ ¬ ∃ r, sparseIdGUI.update = some r ∧ r.1.state = -1 ∧ r.1.touch_x = 0 ∧ r.1.touch_y = 0 := by
  refine ⟨⟨_, List.mem_singleton.mpr rfl, rfl⟩, by decide, by decide, ?_⟩
  have h : sparseIdGUI.update = none := by decide
  rintro ⟨r, hr, _⟩
  rw [h] at hr
  exact Option.noConfusion hr

/-- C5 (amended): for every dispatcher whose active state is a registered id
that is also a position of the state collection (`0 ≤ id < number of states`),
`update` sets the active state to -1 and the recorded touch to `(0,0)` if a
touch is detected and the recorded point is inside the back Region, and
otherwise leaves the dispatcher unchanged; the back Region is the bounding box
`10 ≤ x ≤ 98`, `6 ≤ y ≤ 54` of the ellipse of centre `(54,30)` and radii `(44,24)`. -/
theorem update_active_back (g : GUI)
    (hreg : ∃ s ∈ g.states, s.state_id = g.state)
    (h0 : 0 ≤ g.state) (hlt : g.state < g.states.length) :
    (∃ r, g.update = some r
      ∧ r.1 = (if g.TS_State.TouchDetected = true ∧ backButton.isWithin g.touch_x g.touch_y = true
                then { g with touch_x := 0, touch_y := 0, state := -1 } else g))
    ∧ (backButton.isWithin g.touch_x g.touch_y = true ↔
        (10 ≤ g.touch_x ∧ g.touch_x ≤ 98) ∧ (6 ≤ g.touch_y ∧ g.touch_y ≤ 54)) := by
  refine ⟨?_, backButton_isWithin_iff _ _⟩
  obtain ⟨s, hs⟩ := activeState_of_index g h0 hlt
  have hne : g.state ≠ -1 := by omega
  by_cases hc : g.TS_State.TouchDetected = true ∧ backButton.isWithin g.touch_x g.touch_y = true
  · have hb : (g.TS_State.TouchDetected && backButton.isWithin g.touch_x g.touch_y) = true := by
      simpa using hc
    simp only [GUI.update, hne, if_false, hs, hb, if_true]
    exact ⟨_, rfl, by simp [hc]⟩
  · have hb : ¬ (g.TS_State.TouchDetected && backButton.isWithin g.touch_x g.touch_y) = true := by
      simpa using hc
    simp only [GUI.update, hne, if_false, hs, hb]
    exact ⟨_, rfl, by simp [hc]⟩

/-- Witness of C5 (amended): with the single state 0 active and a detected touch
at `(54,30)`, `update` returns to the sentinel -1 and resets the touch. -/
theorem update_active_back_witness :
    (∃ s ∈ activeZeroGUI.states, s.state_id = activeZeroGUI.state)
    ∧ ∃ r, activeZeroGUI.update = some r
      ∧ r.1.state = -1 ∧ r.1.touch_x = 0 ∧ r.1.touch_y = 0 := by
  have hreg : ∃ s ∈ activeZeroGUI.states, s.state_id = activeZeroGUI.state :=
    ⟨_, List.mem_singleton.mpr rfl, rfl⟩
  obtain ⟨⟨r, h1, h2⟩, _⟩ := update_active_back activeZeroGUI hreg (by decide) (by decide)
  have hc : activeZeroGUI.TS_State.TouchDetected = true
      ∧ backButton.isWithin activeZeroGUI.touch_x activeZeroGUI.touch_y = true := by decide
  rw [if_pos hc] at h2
  exact ⟨hreg, r, h1, by rw [h2], by rw [h2], by rw [h2]⟩

/-- C6: for every stored touch `(tx, ty)` and raw report `(X, Y)` with
`Y ≤ 320`, `getTouchEvent` returns true iff `X ≠ tx` and `320 - Y ≠ ty`; when
it returns true the stored touch becomes `(X, 320 - Y)`, and when it returns
false the stored touch is unchanged. -/
theorem getTouchEvent_both_axes (g : GUI) (report : TS_StateTypeDef) (hY : report.Y ≤ 320) :
    ((g.getTouchEvent report).1 = true ↔
        report.X ≠ g.touch_x ∧ 320 - report.Y ≠ g.touch_y)
    ∧ ((g.getTouchEvent report).1 = true →
        (g.getTouchEvent report).2.touch_x = report.X
        ∧ (g.getTouchEvent report).2.touch_y = 320 - report.Y)
    ∧ ((g.getTouchEvent report).1 = false →
        (g.getTouchEvent report).2.touch_x = g.touch_x
        ∧ (g.getTouchEvent report).2.touch_y = g.touch_y) := by
  have e1 : toInt32 (SCREEN_YSIZE - (report.Y : Int)) = ((320 - report.Y : Nat) : Int) := by
    unfold SCREEN_YSIZE
    rw [toInt32_of_small _ (by omega) (by omega)]
    omega
  have e2 : toUInt16 ((320 - report.Y : Nat) : Int) = 320 - report.Y := by
    unfold toUInt16
    omega
  have hcond : ((report.X : Int) ≠ (g.touch_x : Int)
        ∧ toInt32 (SCREEN_YSIZE - (report.Y : Int)) ≠ (g.touch_y : Int))
      ↔ (report.X ≠ g.touch_x ∧ 320 - report.Y ≠ g.touch_y) := by
    rw [e1]
    simp only [ne_eq, Nat.cast_inj]
  by_cases hc : report.X ≠ g.touch_x ∧ 320 - report.Y ≠ g.touch_y
  · have h : g.getTouchEvent report
        = (true, { g with TS_State := report, touch_x := report.X,
                          touch_y := 320 - report.Y }) := by
      simp only [GUI.getTouchEvent]
      rw [if_pos (hcond.mpr hc), e1, e2]
    rw [h]
    exact ⟨by simp [hc], fun _ => ⟨rfl, rfl⟩, fun hf => by simp at hf⟩
  · have h : g.getTouchEvent report = (false, { g with TS_State := report }) := by
      simp only [GUI.getTouchEvent]
      rw [if_neg (fun hh => hc (hcond.mp hh))]
    rw [h]
    exact ⟨by simp [hc], fun ht => by simp at ht, fun _ => ⟨rfl, rfl⟩⟩

/-- Witness of C6: with stored touch `(50,50)`, the report `X = 50`, `Y = 240`
(flipped coordinates `(50,80)`) is not recognised as a new event and the stored
touch stays `(50,50)`. -/
theorem getTouchEvent_both_axes_witness :
    (240 : Nat) ≤ 320
    ∧ (storedTouch5050.getTouchEvent ⟨true, 50, 240⟩).1 = false
    ∧ (storedTouch5050.getTouchEvent ⟨true, 50, 240⟩).2.touch_x = 50
    ∧ (storedTouch5050.getTouchEvent ⟨true, 50, 240⟩).2.touch_y = 50 := by
  have hY : (TS_StateTypeDef.mk true 50 240).Y ≤ 320 := by decide
  obtain ⟨h1, _, h3⟩ := getTouchEvent_both_axes storedTouch5050 ⟨true, 50, 240⟩ hY
  have hf : (storedTouch5050.getTouchEvent ⟨true, 50, 240⟩).1 = false := by
    apply Bool.eq_false_iff.mpr
    intro ht
    exact absurd (h1.mp ht).1 (by decide)
  exact ⟨by decide, hf, (h3 hf).1, (h3 hf).2⟩


/-! ## Registration order -/

theorem insertState_perm (s : State) (l : List State) : (insertState s l).Perm (s :: l) := by
  induction l with
  | nil => simp [insertState]
  | cons t ts ih =>
    unfold insertState
    by_cases h : s.lt t = true
    · rw [if_pos h]
    · rw [if_neg h]
      exact (List.Perm.cons t ih).trans (List.Perm.swap s t ts)

theorem sortStates_perm (l : List State) : (sortStates l).Perm l := by
  induction l with
  | nil => simp [sortStates]
  | cons s ss ih =>
    unfold sortStates
    exact (insertState_perm s _).trans (List.Perm.cons s ih)

theorem insertState_pairwise (s : State) (l : List State)
    (h : l.Pairwise (fun a b => a.state_id ≤ b.state_id)) :
    (insertState s l).Pairwise (fun a b => a.state_id ≤ b.state_id) := by
  induction l with
  | nil => simp [insertState]
  | cons t ts ih =>
    obtain ⟨ht, hts⟩ := List.pairwise_cons.mp h
    unfold insertState
    by_cases hlt : s.lt t = true
    · rw [if_pos hlt]
      have hst : s.state_id < t.state_id := by simpa [State.lt] using hlt
      refine List.pairwise_cons.mpr ⟨?_, h⟩
      intro x hx
      rcases List.mem_cons.mp hx with rfl | hx
      · omega
      · have := ht x hx
        omega
    · rw [if_neg hlt]
      have hst : t.state_id ≤ s.state_id := by
        have : ¬ s.state_id < t.state_id := by simpa [State.lt] using hlt
        omega
      refine List.pairwise_cons.mpr ⟨?_, ih hts⟩
      intro x hx
      rcases List.mem_cons.mp ((insertState_perm s ts).subset hx) with rfl | hx
      · exact hst
      · exact ht x hx

theorem sortStates_pairwise (l : List State) :
    (sortStates l).Pairwise (fun a b => a.state_id ≤ b.state_id) := by
  induction l with
  | nil => simp [sortStates]
  | cons s ss ih =>
    unfold sortStates
    exact insertState_pairwise s _ ih

theorem GUI.addStates_states_perm (g : GUI) (calls : List State) :
    (g.addStates calls).states.Perm (g.states ++ calls) := by
  induction calls generalizing g with
  | nil => simp [GUI.addStates]
  | cons c cs ih =>
    have h1 := ih (g.addState c.state_id c.button c.regions)
    have h2 : (g.addState c.state_id c.button c.regions).states.Perm (g.states ++ [c]) :=
      sortStates_perm _
    have h3 : (g.addStates (c :: cs)) = (g.addState c.state_id c.button c.regions).addStates cs := rfl
    rw [h3]
    refine h1.trans ?_
    have := List.Perm.append_right cs h2
    simpa using this

theorem GUI.addStates_states_pairwise (g : GUI) (calls : List State)
    (h : g.states.Pairwise (fun a b => a.state_id ≤ b.state_id)) :
    (g.addStates calls).states.Pairwise (fun a b => a.state_id ≤ b.state_id) := by
  induction calls generalizing g with
  | nil => simpa [GUI.addStates] using h
  | cons c cs ih =>
    have h3 : (g.addStates (c :: cs)) = (g.addState c.state_id c.button c.regions).addStates cs := rfl
    rw [h3]
    exact ih _ (sortStates_pairwise _)

theorem drawn_append (a b : List LcdOp) : drawn (a ++ b) = drawn a ++ drawn b := by
  induction a with
  | nil => rfl
  | cons op ops ih => cases op <;> simp [drawn, ih]

theorem drawn_menuStep (acc : GUI × List LcdOp) (s : State) :
    drawn (GUI.menuStep acc s).2 = drawn acc.2 ++ [s.button] := by
  unfold GUI.menuStep
  by_cases h : (acc.1.TS_State.TouchDetected && s.button.isWithin acc.1.touch_x acc.1.touch_y) = true
  · simp [h, drawn_append, drawn]
  · simp [h, drawn_append, drawn]

theorem drawn_menu_loop (l : List State) (acc : GUI × List LcdOp) :
    drawn (l.foldl GUI.menuStep acc).2 = drawn acc.2 ++ l.map State.button := by
  induction l generalizing acc with
  | nil => simp
  | cons s ss ih =>
    rw [List.foldl_cons, ih, drawn_menuStep]
    simp

/-- C9: after any sequence of `addState` calls with pairwise distinct ids on a
new dispatcher, the state collection is a permutation of the registered states
in strictly ascending id order, and the menu branch of `update` draws the entry
Regions in exactly that order, whatever the touch fields hold. -/
theorem addState_sorted_menu_order (ts0 : TS_StateTypeDef) (calls : List State)
    (hd : (calls.map State.state_id).Nodup) :
    ((GUI.new ts0).addStates calls).states.Perm calls
    ∧ ((GUI.new ts0).addStates calls).states.Pairwise (fun a b => a.state_id < b.state_id)
    ∧ ∀ g : GUI, g.states = ((GUI.new ts0).addStates calls).states → g.state = -1 →
        ∃ r, g.update = some r
          ∧ drawn r.2 = (((GUI.new ts0).addStates calls).states).map State.button := by
  have hp : ((GUI.new ts0).addStates calls).states.Perm calls := by
    have := GUI.addStates_states_perm (GUI.new ts0) calls
    simpa [GUI.new] using this
  have hle := GUI.addStates_states_pairwise (GUI.new ts0) calls (by simp [GUI.new])
  have hnd : (((GUI.new ts0).addStates calls).states.map State.state_id).Nodup :=
    ((hp.map State.state_id).nodup_iff).mpr hd
  have hne : ((GUI.new ts0).addStates calls).states.Pairwise
      (fun a b => a.state_id ≠ b.state_id) := List.pairwise_map.mp hnd
  refine ⟨hp, ?_, ?_⟩
  · exact (hle.and hne).imp (fun h => lt_of_le_of_ne h.1 h.2)
  · intro g hg hs
    have hu : g.update = some (g.states.foldl GUI.menuStep (g, [LcdOp.drawTitle])) := by
      simp only [GUI.update, hs, if_true]
    refine ⟨_, hu, ?_⟩
    rw [drawn_menu_loop, hg]
    simp [drawn]

/-- Witness of C9: registering the ids 2, 0, 1 in that sequence yields the menu
order 0, 1, 2. -/
theorem addState_sorted_menu_order_witness :
    (calls201.map State.state_id).Nodup
    ∧ (((GUI.new ⟨false, 0, 0⟩).addStates calls201).states.map State.state_id) = [0, 1, 2]
    ∧ ∃ r, ((GUI.new ⟨false, 0, 0⟩).addStates calls201).update = some r
        ∧ drawn r.2 = [Region.ellipse ⟨120, 100, 64, 32⟩, Region.ellipse ⟨120, 180, 64, 32⟩,
                       Region.ellipse ⟨120, 260, 64, 32⟩] := by
  have hd : (calls201.map State.state_id).Nodup := by decide
  have hs : ((GUI.new ⟨false, 0, 0⟩).addStates calls201).states.map State.state_id = [0, 1, 2] := by
    decide
  obtain ⟨_, _, h3⟩ := addState_sorted_menu_order ⟨false, 0, 0⟩ calls201 hd
  obtain ⟨r, hr1, hr2⟩ := h3 ((GUI.new ⟨false, 0, 0⟩).addStates calls201) rfl (by decide)
  refine ⟨hd, hs, r, hr1, ?_⟩
  rw [hr2]
  decide

/-! ## Frequency estimate -/

theorem isBinary32_scaled (n : Nat) (h : n < 2 ^ 24) : isBinary32 ((n : ℚ) / 128) := by
  refine ⟨n, -7, by simpa using h, by decide, by decide, ?_⟩
  have : (2 : ℚ) ^ (-7 : Int) = 1 / 128 := by norm_num [zpow_neg]
  rw [this]
  push_cast
  ring

/-- C10: for every peak bin index `i < FFT_SIZE = 256` and every rounding to
`float` that leaves representable values unchanged, `fourierTransform` returns
exactly `i * (30 / 256)`, the quotient being the real quotient `0.1171875`
(an integer division would give 0). -/
theorem fourierTransform_formula (fl : ℚ → ℚ) (hfl : IsRounding fl) (i : Nat)
    (hi : i < FFT_SIZE) :
    fourierTransform fl i = (i : ℚ) * ((SAMPLING_FREQ : ℚ) / (FFT_SIZE : ℚ))
    ∧ fourierTransform fl i = (i : ℚ) * (30 / 256)
    ∧ ((SAMPLING_FREQ : ℚ) / (FFT_SIZE : ℚ) = 1171875 / 10000000) := by
  unfold FFT_SIZE at hi
  have hI : fl (i : ℚ) = i := hfl _ (isBinary32_of_nat i (by omega))
  have h30 : fl ((30 : Nat) : ℚ) = 30 := by
    have := hfl _ (isBinary32_of_nat 30 (by decide))
    simpa using this
  have h256 : fl ((256 : Nat) : ℚ) = 256 := by
    have := hfl _ (isBinary32_of_nat 256 (by decide))
    simpa using this
  have hq : fl ((30 : ℚ) / 256) = 30 / 256 := by
    have := hfl _ (isBinary32_scaled 15 (by decide))
    have e : ((15 : Nat) : ℚ) / 128 = 30 / 256 := by norm_num
    rwa [e] at this
  have hr : fl ((i : ℚ) * (30 / 256)) = (i : ℚ) * (30 / 256) := by
    have := hfl _ (isBinary32_scaled (15 * i) (by omega))
    have e : ((15 * i : Nat) : ℚ) / 128 = (i : ℚ) * (30 / 256) := by
      push_cast; ring
    rwa [e] at this
  have main : fourierTransform fl i = (i : ℚ) * (30 / 256) := by
    unfold fourierTransform SAMPLING_FREQ FFT_SIZE
    rw [hI, h30, h256, hq, hr]
  refine ⟨?_, main, ?_⟩
  · rw [main]; unfold SAMPLING_FREQ FFT_SIZE; norm_num
  · unfold SAMPLING_FREQ FFT_SIZE; norm_num

/-- Witness of C10: for the peak index 40 the result is exactly 4.6875. -/
theorem fourierTransform_formula_witness :
    IsRounding id ∧ 40 < FFT_SIZE ∧ fourierTransform id 40 = 46875 / 10000 := by
  have hid : IsRounding id := fun _ _ => rfl
  have h40 : 40 < FFT_SIZE := by decide
  refine ⟨hid, h40, ?_⟩
  rw [(fourierTransform_formula id hid 40 h40).2.1]
  norm_num

/-! ## MovingAverage: `clear`, the write index and the running sum -/

namespace MovingAverage

theorem zeroSlots_succ (w : List ℚ) (n : Nat) :
    zeroSlots w (n + 1) = (zeroSlots w n).bind (fun acc => zeroSlot acc n) := by
  unfold zeroSlots
  rw [List.range_succ, List.foldlM_append]
  simp [List.foldlM]

theorem zeroSlots_eq (w : List ℚ) (n : Nat) (h : n ≤ w.length) :
    zeroSlots w n = some (List.replicate n 0 ++ w.drop n) := by
  induction n with
  | zero => simp [zeroSlots]
  | succ n ih =>
    have hn : n < w.length := by omega
    rw [zeroSlots_succ, ih (by omega)]
    have hlen : n < (List.replicate n (0 : ℚ) ++ w.drop n).length := by
      simp; omega
    have hdrop : w.drop n = w[n] :: w.drop (n + 1) := List.drop_eq_getElem_cons hn
    simp only [Option.some_bind, zeroSlot, hlen, if_true]
    rw [List.set_append_right _ _ (by simp)]
    simp only [List.length_replicate, Nat.sub_self]
    rw [hdrop, List.set_cons_zero, List.replicate_succ', List.append_assoc]
    rfl

theorem clear_eq (m : MovingAverage) (h : m.window.length = m.WINDOW_SIZE) :
    m.clear = some { m with window := List.replicate m.WINDOW_SIZE 0, size := 0 } := by
  unfold clear
  rw [zeroSlots_eq m.window m.WINDOW_SIZE (by omega)]
  simp [← h]

/-- C13: for every state whose buffer has the `K = WINDOW_SIZE` declared slots,
`clear()` succeeds, sets all `K` stored values to zero and the element count to
zero, an immediately following `getAverage()` returns 0, and the running sum
(like the write index) is left unchanged. -/
theorem clear_effect (m : MovingAverage) (h : m.window.length = m.WINDOW_SIZE) :
    ∃ c, m.clear = some c
      ∧ c.window = List.replicate m.WINDOW_SIZE 0
      ∧ c.size = 0
      ∧ (∀ fl : ℚ → ℚ, c.getAverage fl = 0)
      ∧ c.sum = m.sum
      ∧ c.index = m.index
      ∧ c.WINDOW_SIZE = m.WINDOW_SIZE := by
  refine ⟨_, clear_eq m h, rfl, rfl, ?_, rfl, rfl, rfl⟩
  intro fl
  simp [getAverage]

/-- Witness of C13 on the full window 2, 4, 6 of capacity 3: after `clear()`
the slots are 0, 0, 0, the count is 0, the average is 0 and the sum is still 12. -/
theorem clear_effect_witness :
    fullWindow246.window.length = fullWindow246.WINDOW_SIZE
    ∧ ∃ c, fullWindow246.clear = some c
      ∧ c.window = [0, 0, 0] ∧ c.size = 0 ∧ (∀ fl : ℚ → ℚ, c.getAverage fl = 0)
      ∧ c.sum = 12 := by
  have hw : fullWindow246.window.length = fullWindow246.WINDOW_SIZE := by
    simp [fullWindow246]
  obtain ⟨c, h1, h2, h3, h4, h5, _, _⟩ := clear_effect fullWindow246 hw
  refine ⟨hw, c, h1, ?_, h3, h4, ?_⟩
  · rw [h2]; simp [fullWindow246, List.replicate]
  · rw [h5]; simp [fullWindow246]

theorem warm_update_full (K : Nat) (vs : List ℚ) (h : vs.length = K) (v : ℚ) :
    (warm K vs).readSlot = none ∧ (warm K vs).update v = none := by
  have hr : (warm K vs).readSlot = none := by
    simp [readSlot, warm, h]
  refine ⟨hr, ?_⟩
  have hs : ¬ (warm K vs).size < (warm K vs).WINDOW_SIZE := by
    simp [warm, h]
  simp only [update, hs, if_false, hr, Option.map_none', Option.bind_eq_bind, Option.none_bind]

theorem updates_fill (K : Nat) (f : Nat → ℚ) :
    (fresh K).updates ((List.range K).map f) = some (warm K ((List.range K).map f)) := by
  have := updates_warm K ((List.range K).map f) [] (by simp)
  simpa [fresh_eq_warm] using this

/-- C15 (evaluation at the failing inputs): for every capacity `K` and values
`f 0 .. f (K-1)`, the `K` updates of a fresh window succeed and leave the write
index equal to `K`, outside `0..K-1`; the next `update` then accesses
`window[K]` and has no defined result.  For `K = 3` and the values 2, 4, 6 the
index after the third update is 3. -/
theorem index_reaches_capacity (K : Nat) (f : Nat → ℚ) :
    (∃ m, (fresh K).updates ((List.range K).map f) = some m
      ∧ m.index = K ∧ m.window.length = K ∧ ¬ m.index < K
      ∧ ∀ v, m.update v = none)
    ∧ ((fresh 3).updates [2, 4, 6]).map (fun m => m.index) = some 3 := by
  refine ⟨⟨_, updates_fill K f, ?_, ?_, ?_, ?_⟩, ?_⟩
  · simp [warm]
  · simp [warm]
  · simp [warm]
  · intro v
    exact (warm_update_full K _ (by simp) v).2
  · simp [updates, update, fresh, readSlot, writeSlot, List.replicate]

/-- C16 (evaluation at the failing inputs): for every capacity `K` and values
`f 0 .. f (K-1)`, the state after `K` updates has count `K` and a running sum
equal to the sum of the stored values, but the value `window[index]` which the
next `update` subtracts from the running sum lies outside the buffer, so that
update has no result in which the sum matches the buffer. -/
theorem sum_subtracts_outside_buffer (K : Nat) (f : Nat → ℚ) :
    ∃ m, (fresh K).updates ((List.range K).map f) = some m
      ∧ m.size = K ∧ m.sum = m.window.sum
      ∧ ¬ m.size < m.WINDOW_SIZE
      ∧ m.readSlot = none
      ∧ ∀ v, (fresh K).updates ((List.range K).map f ++ [v]) = none := by
  refine ⟨_, updates_fill K f, ?_, ?_, ?_, ?_, ?_⟩
  · simp [warm]
  · simp [warm]
  · simp [warm]
  · exact (warm_update_full K _ (by simp) 0).1
  · intro v
    have h1 := updates_fill K f
    have h2 := (warm_update_full K ((List.range K).map f) (by simp) v).2
    have happ : ∀ (m : MovingAverage) (xs ys : List ℚ),
        m.updates (xs ++ ys) = (m.updates xs).bind (fun m1 => m1.updates ys) := by
      intro m xs ys
      induction xs generalizing m with
      | nil => simp [updates]
      | cons x xs ih =>
        simp only [List.cons_append, updates]
        cases m.update x with
        | none => simp
        | some m1 => simpa using ih m1
    rw [happ, h1]
    simp [updates, h2]

/-- C19 (evaluation at the failing input): with capacity 3, `update(5)` leaves
the write index at 1; `clear()` zeroes the slots and the count but keeps the
index 1 (and the sum 5); `update(3)` then stores 3 in slot 1 with count 1, and
`getAverage()` reads slot 0 only and returns 0, whereas the same update on a
fresh window gives the average 3. -/
theorem clear_keeps_write_index :
    (fresh 3).update 5 = some afterUpdate5
    ∧ afterUpdate5.clear = some clearedAfter5
    ∧ clearedAfter5.update 3 = some clearedThen3
    ∧ (∀ fl : ℚ → ℚ, IsRounding fl → clearedThen3.getAverage fl = 0)
    ∧ (∀ fl : ℚ → ℚ, IsRounding fl →
        ((fresh 3).updates [3]).map (getAverage fl) = some 3) := by
  have r0 : ∀ fl : ℚ → ℚ, IsRounding fl → fl 0 = 0 := fun fl hfl => by
    simpa using rounding_natCast fl hfl 0 (by decide)
  have r1 : ∀ fl : ℚ → ℚ, IsRounding fl → fl 1 = 1 := fun fl hfl => by
    simpa using rounding_natCast fl hfl 1 (by decide)
  have r3 : ∀ fl : ℚ → ℚ, IsRounding fl → fl 3 = 3 := fun fl hfl => by
    simpa using rounding_natCast fl hfl 3 (by decide)
  refine ⟨?_, ?_, ?_, ?_, ?_⟩
  · simp [update, fresh, readSlot, writeSlot, List.replicate, afterUpdate5]
  · rw [clear_eq _ (by simp [afterUpdate5])]
    simp [afterUpdate5, clearedAfter5, List.replicate]
  · simp [update, readSlot, writeSlot, clearedAfter5, clearedThen3]
    norm_num
  · intro fl hfl
    simp [getAverage, accumulate, clearedThen3, r0 fl hfl, r1 fl hfl]
  · intro fl hfl
    simp [updates, update, fresh, readSlot, writeSlot, List.replicate, getAverage, accumulate,
      r1 fl hfl, r3 fl hfl]

end MovingAverage

/-! ## Dispatcher: reachable states and content rendering -/

theorem menu_loop_fields (l : List State) (acc : GUI × List LcdOp) :
    (l.foldl GUI.menuStep acc).1.states = acc.1.states
    ∧ ((l.foldl GUI.menuStep acc).1.state = acc.1.state
        ∨ ∃ s ∈ l, s.state_id = (l.foldl GUI.menuStep acc).1.state) := by
  induction l generalizing acc with
  | nil => simp
  | cons s ss ih =>
    rw [List.foldl_cons]
    obtain ⟨h1, h2⟩ := ih (GUI.menuStep acc s)
    have hs : (GUI.menuStep acc s).1.states = acc.1.states
        ∧ ((GUI.menuStep acc s).1.state = acc.1.state
            ∨ (GUI.menuStep acc s).1.state = s.state_id) := by
      unfold GUI.menuStep
      by_cases h : (acc.1.TS_State.TouchDetected
          && s.button.isWithin acc.1.touch_x acc.1.touch_y) = true
      · simp [h]
      · simp [h]
    refine ⟨h1.trans hs.1, ?_⟩
    rcases h2 with h2 | ⟨t, ht, hte⟩
    · rcases hs.2 with h3 | h3
      · exact Or.inl (h2.trans h3)
      · exact Or.inr ⟨s, List.mem_cons_self _ _, (h2.trans h3).symm⟩
    · exact Or.inr ⟨t, List.mem_cons_of_mem _ ht, hte⟩

theorem update_fields (g : GUI) (r : GUI × List LcdOp) (h : g.update = some r) :
    r.1.states = g.states
    ∧ (g.state = -1 → r.1.state = -1 ∨ ∃ s ∈ g.states, s.state_id = r.1.state)
    ∧ (g.state ≠ -1 → r.1.state = g.state ∨ r.1.state = -1) := by
  by_cases hm : g.state = -1
  · have hu : g.update = some (g.states.foldl GUI.menuStep (g, [LcdOp.drawTitle])) := by
      simp only [GUI.update, hm, if_true]
    rw [hu] at h
    have hr : r = g.states.foldl GUI.menuStep (g, [LcdOp.drawTitle]) := (Option.some.inj h).symm
    obtain ⟨h1, h2⟩ := menu_loop_fields g.states (g, [LcdOp.drawTitle])
    rw [← hr] at h1 h2
    refine ⟨h1, fun _ => ?_, fun hne => absurd hm hne⟩
    rcases h2 with h2 | h2
    · exact Or.inl (h2.trans hm)
    · exact Or.inr h2
  · cases hs : g.activeState with
    | none =>
      simp only [GUI.update, hm, if_false, hs] at h
      exact Option.noConfusion h
    | some s =>
      by_cases hb : (g.TS_State.TouchDetected && backButton.isWithin g.touch_x g.touch_y) = true
      · simp only [GUI.update, hm, if_false, hs, hb, if_true] at h
        have hr := (Option.some.inj h).symm
        subst hr
        exact ⟨rfl, fun h0 => absurd h0 hm, fun _ => Or.inr rfl⟩
      · simp only [GUI.update, hm, if_false, hs, hb] at h
        have hr := (Option.some.inj h).symm
        subst hr
        exact ⟨rfl, fun h0 => absurd h0 hm, fun _ => Or.inl rfl⟩

theorem getTouchEvent_fields (g : GUI) (report : TS_StateTypeDef) :
    (g.getTouchEvent report).2.state = g.state
    ∧ (g.getTouchEvent report).2.states = g.states := by
  unfold GUI.getTouchEvent
  dsimp only
  split <;> exact ⟨rfl, rfl⟩

theorem reachable_registered (g : GUI) (h : g.Reachable) :
    (g.state = -1 ∨ ∃ s ∈ g.states, s.state_id = g.state)
    ∧ (g.states.map State.state_id).Nodup := by
  induction h with
  | init ts0 => exact ⟨Or.inl rfl, by simp [GUI.new]⟩
  | @addState g0 state_id button ui _ hnew ih =>
    have hp : (g0.addState state_id button ui).states.Perm
        (g0.states ++ [State.mk state_id button ui]) := sortStates_perm _
    refine ⟨?_, ?_⟩
    · rcases ih.1 with h1 | ⟨s, hs, hse⟩
      · exact Or.inl h1
      · exact Or.inr ⟨s, hp.symm.subset (List.mem_append_left _ hs), hse⟩
    · rw [(hp.map State.state_id).nodup_iff]
      simp only [List.map_append, List.map_cons, List.map_nil]
      refine List.Nodup.append ih.2 (List.nodup_singleton _) ?_
      intro a ha hb
      obtain ⟨s, hs, rfl⟩ := List.mem_map.mp ha
      exact hnew s hs (List.mem_singleton.mp hb)
  | @getTouchEvent g0 report _ ih =>
    obtain ⟨e1, e2⟩ := getTouchEvent_fields g0 report
    rw [e1, e2]
    exact ih
  | @update g0 r _ hu ih =>
    obtain ⟨e1, e2, e3⟩ := update_fields g0 r hu
    rw [e1]
    refine ⟨?_, ih.2⟩
    by_cases hm : g0.state = -1
    · exact e2 hm
    · rcases e3 hm with h1 | h1
      · rcases ih.1 with h2 | h2
        · exact absurd h2 hm
        · rw [h1]; exact Or.inr h2
      · exact Or.inl h1

/-- C11: in every dispatcher state reachable from a new `GUI` by `addState`
(with ids not registered before), `getTouchEvent` and `update`, the registered
ids are pairwise distinct and the active state is the sentinel -1 or the id of
a registered state; an `update` from an active id `a` ends with the active
state `a` or -1, never with another id; and `update` does return in MENU and
whenever the active id is a position of the state collection. -/
theorem dispatcher_invariant (g : GUI) (h : g.Reachable) :
    (g.states.map State.state_id).Nodup
    ∧ (g.state = -1 ∨ ∃ s ∈ g.states, s.state_id = g.state)
    ∧ (∀ r, g.update = some r →
        (r.1.state = -1 ∨ ∃ s ∈ r.1.states, s.state_id = r.1.state)
        ∧ (g.state ≠ -1 → r.1.state = g.state ∨ r.1.state = -1))
    ∧ (g.state = -1 → ∃ r, g.update = some r)
    ∧ (0 ≤ g.state → g.state < g.states.length → ∃ r, g.update = some r) := by
  obtain ⟨h1, h2⟩ := reachable_registered g h
  refine ⟨h2, h1, ?_, ?_, ?_⟩
  · intro r hr
    exact ⟨(reachable_registered r.1 (GUI.Reachable.update h hr)).1, (update_fields g r hr).2.2⟩
  · intro hm
    simp only [GUI.update, hm, if_true]
    exact ⟨_, rfl⟩
  · intro h0 hlt
    obtain ⟨s, hs⟩ := activeState_of_index g h0 hlt
    have hne : g.state ≠ -1 := by omega
    by_cases hb : (g.TS_State.TouchDetected && backButton.isWithin g.touch_x g.touch_y) = true
    · simp only [GUI.update, hne, if_false, hs, hb, if_true]
      exact ⟨_, rfl⟩
    · simp only [GUI.update, hne, if_false, hs, hb]
      exact ⟨_, rfl⟩

theorem tremorActive_reachable : tremorActive.Reachable := by
  have h1 : ((GUI.new ⟨false, 0, 0⟩).addState TREMOR_DETECTION TREMOR_BUTTON TREMOR_UI).Reachable :=
    GUI.Reachable.addState _ _ _ (GUI.Reachable.init _) (by simp [GUI.new])
  have h2 : tremorTouched.Reachable := GUI.Reachable.getTouchEvent _ h1
  have hu : tremorTouched.update = some (tremorActive, tremorLog) := by decide
  exact GUI.Reachable.update h2 hu

/-- Witness of C11: the dispatcher reached by registering the Tremor state,
reporting a touch at its button and calling `update` has the active state 0,
a registered id, and a further `update` keeps it at 0 or returns to -1. -/
theorem dispatcher_invariant_witness :
    tremorActive.Reachable
    ∧ tremorActive.state = 0
    ∧ (∃ s ∈ tremorActive.states, s.state_id = tremorActive.state)
    ∧ ∃ r, tremorActive.update = some r ∧ (r.1.state = 0 ∨ r.1.state = -1) := by
  have hr := tremorActive_reachable
  obtain ⟨_, h2, h3, _, h5⟩ := dispatcher_invariant tremorActive hr
  have hs : tremorActive.state = 0 := rfl
  obtain ⟨r, hu⟩ := h5 (by decide) (by decide)
  refine ⟨hr, hs, ?_, r, hu, ?_⟩
  · rcases h2 with h2 | h2
    · exact absurd h2 (by decide)
    · exact h2
  · have := (h3 r hu).2 (by decide)
    rwa [hs] at this

theorem drawn_map_draw (l : List Region) : drawn (l.map LcdOp.draw) = l := by
  induction l with
  | nil => rfl
  | cons r rs ih => simp [drawn, ih]

/-- C14 (counterexample): the ids 1 and 2 are registered and distinct and id 1
is active, yet `update` draws the content Region registered with id 2 (and then
the back Region), not the one registered with id 1. -/
theorem update_active_draws_other_state :
    (shiftedIdGUI.states.map State.state_id) = [1, 2]
    ∧ (State.mk 1 (Region.rect ⟨100, 100, 50, 50⟩) [Region.rect ⟨0, 40, 240, 100⟩])
        ∈ shiftedIdGUI.states
    ∧ shiftedIdGUI.state = 1
    ∧ shiftedIdGUI.update.map (fun r => drawn r.2)
        = some [Region.rect ⟨0, 150, 240, 100⟩, Region.ellipse backButton]
    ∧ ¬ ∃ r, shiftedIdGUI.update = some r
        ∧ drawn r.2 = [Region.rect ⟨0, 40, 240, 100⟩] ++ [Region.ellipse backButton] := by
  have hu : shiftedIdGUI.update.map (fun r => drawn r.2)
      = some [Region.rect ⟨0, 150, 240, 100⟩, Region.ellipse backButton] := by decide
  refine ⟨by decide, by decide, rfl, hu, ?_⟩
  rintro ⟨r, hr, hd⟩
  rw [hr] at hu
  simp only [Option.map_some', Option.some.injEq] at hu
  rw [hu] at hd
  exact absurd hd (by decide)

/-- C14 (amended): for every dispatcher whose registered ids are their own
positions in the state collection (the ids are exactly `0 .. n-1`) and every
registered state `s` whose id is the active state, `update` looks up `s`
itself and draws exactly the content Regions of `s`, in their order, and then
the back Region. -/
theorem update_active_draws_content (g : GUI) (s : State)
    (hpos : ∀ (k : Nat) (t : State), g.states.get? k = some t → t.state_id = (k : Int))
    (hs : s ∈ g.states) (hid : s.state_id = g.state) :
    g.activeState = some s
    ∧ ∃ r, g.update = some r ∧ drawn r.2 = s.regions ++ [Region.ellipse backButton] := by
  obtain ⟨k, hk⟩ := List.mem_iff_get?.mp hs
  have hsk : g.state = (k : Int) := by rw [← hid]; exact hpos k s hk
  have ha : g.activeState = some s := by
    simpa [GUI.activeState, hsk] using hk
  have hne : g.state ≠ -1 := by omega
  refine ⟨ha, ?_⟩
  by_cases hb : (g.TS_State.TouchDetected && backButton.isWithin g.touch_x g.touch_y) = true
  · simp only [GUI.update, hne, if_false, ha, hb, if_true]
    refine ⟨_, rfl, ?_⟩
    simp [drawn_append, drawn_map_draw, drawn]
  · simp only [GUI.update, hne, if_false, ha, hb]
    refine ⟨_, rfl, ?_⟩
    simp [drawn_append, drawn_map_draw, drawn]

/-- Witness of C14 (amended): in the menu of `main` (ids 0, 1, 2) with
`FREQ_VIEW` active, `update` draws the content Region of `FREQ_VIEW` and then
the back Region. -/
theorem update_active_draws_content_witness :
    (State.mk FREQ_VIEW FREQ_BUTTON FREQ_UI) ∈ freqActive.states
    ∧ ∃ r, freqActive.update = some r
        ∧ drawn r.2 = [Region.rect ⟨0, 40, 240, 280⟩, Region.ellipse backButton] := by
  have hs : (State.mk FREQ_VIEW FREQ_BUTTON FREQ_UI) ∈ freqActive.states := by decide
  have hpos : ∀ (k : Nat) (t : State), freqActive.states.get? k = some t →
      t.state_id = (k : Int) := by
    intro k t hk
    have hl : freqActive.states =
        [State.mk 0 TREMOR_BUTTON TREMOR_UI, State.mk 1 FREQ_BUTTON FREQ_UI,
         State.mk 2 INFO_BUTTON INFO_UI] := by decide
    rw [hl] at hk
    match k, hk with
    | 0, hk => simp at hk; subst hk; rfl
    | 1, hk => simp at hk; subst hk; rfl
    | 2, hk => simp at hk; subst hk; rfl
    | (n + 3), hk => simp at hk
  obtain ⟨_, r, h1, h2⟩ := update_active_draws_content freqActive _ hpos hs rfl
  exact ⟨hs, r, h1, by rw [h2]; rfl⟩

/-! ## The menu of `main` -/

theorem tremorButton_isWithin_iff (x y : Nat) :
    TREMOR_BUTTON.isWithin x y = true ↔ (56 ≤ x ∧ x ≤ 184) ∧ (68 ≤ y ∧ y ≤ 132) := by
  have e1 : toInt32 ((120 : Int) - 64) = 56 := by decide
  have e2 : toInt32 ((120 : Int) + 64) = 184 := by decide
  have e3 : toInt32 ((100 : Int) - 32) = 68 := by decide
  have e4 : toInt32 ((100 : Int) + 32) = 132 := by decide
  simp only [TREMOR_BUTTON, Region.isWithin, EllipseRegion.isWithin, Nat.cast_ofNat, e1, e2, e3,
    e4, Bool.and_eq_true, decide_eq_true_eq, ge_iff_le]
  omega

theorem freqButton_isWithin_iff (x y : Nat) :
    FREQ_BUTTON.isWithin x y = true ↔ (56 ≤ x ∧ x ≤ 184) ∧ (148 ≤ y ∧ y ≤ 212) := by
  have e1 : toInt32 ((120 : Int) - 64) = 56 := by decide
  have e2 : toInt32 ((120 : Int) + 64) = 184 := by decide
  have e3 : toInt32 ((180 : Int) - 32) = 148 := by decide
  have e4 : toInt32 ((180 : Int) + 32) = 212 := by decide
  simp only [FREQ_BUTTON, Region.isWithin, EllipseRegion.isWithin, Nat.cast_ofNat, e1, e2, e3,
    e4, Bool.and_eq_true, decide_eq_true_eq, ge_iff_le]
  omega

theorem infoButton_isWithin_iff (x y : Nat) :
    INFO_BUTTON.isWithin x y = true ↔ (56 ≤ x ∧ x ≤ 184) ∧ (228 ≤ y ∧ y ≤ 292) := by
  have e1 : toInt32 ((120 : Int) - 64) = 56 := by decide
  have e2 : toInt32 ((120 : Int) + 64) = 184 := by decide
  have e3 : toInt32 ((260 : Int) - 32) = 228 := by decide
  have e4 : toInt32 ((260 : Int) + 32) = 292 := by decide
  simp only [INFO_BUTTON, Region.isWithin, EllipseRegion.isWithin, Nat.cast_ofNat, e1, e2, e3,
    e4, Bool.and_eq_true, decide_eq_true_eq, ge_iff_le]
  omega

theorem mainGUI_states (ts0 : TS_StateTypeDef) :
    (mainGUI ts0).states =
      [State.mk 0 TREMOR_BUTTON TREMOR_UI, State.mk 1 FREQ_BUTTON FREQ_UI,
       State.mk 2 INFO_BUTTON INFO_UI] := by
  rfl

/-- C18: with the three states registered by `main`, for every recorded touch
point `(x, y)`, `update` called in MENU with a detected touch ends with active
state `i` iff the point is inside the bounding box of button `i`
(`56 ≤ x ≤ 184` and `68 ≤ y ≤ 132`, `148 ≤ y ≤ 212`, `228 ≤ y ≤ 292` for
`i = 0, 1, 2`), and stays in MENU iff the point is inside none of the boxes;
the boxes are pairwise disjoint and none contains the reset point `(0,0)`. -/
theorem main_menu_activation (ts0 : TS_StateTypeDef) (X Y x y : Nat) :
    (∃ r, GUI.update { TS_State := ⟨true, X, Y⟩, touch_x := x, touch_y := y, state := -1,
                       states := (mainGUI ts0).states } = some r
      ∧ (r.1.state = 0 ↔ TREMOR_BUTTON.isWithin x y = true)
      ∧ (r.1.state = 1 ↔ FREQ_BUTTON.isWithin x y = true)
      ∧ (r.1.state = 2 ↔ INFO_BUTTON.isWithin x y = true)
      ∧ (r.1.state = -1 ↔ (TREMOR_BUTTON.isWithin x y = false
          ∧ FREQ_BUTTON.isWithin x y = false ∧ INFO_BUTTON.isWithin x y = false)))
    ∧ (TREMOR_BUTTON.isWithin x y = true ↔ (56 ≤ x ∧ x ≤ 184) ∧ (68 ≤ y ∧ y ≤ 132))
    ∧ (FREQ_BUTTON.isWithin x y = true ↔ (56 ≤ x ∧ x ≤ 184) ∧ (148 ≤ y ∧ y ≤ 212))
    ∧ (INFO_BUTTON.isWithin x y = true ↔ (56 ≤ x ∧ x ≤ 184) ∧ (228 ≤ y ∧ y ≤ 292))
    ∧ ¬ (TREMOR_BUTTON.isWithin x y = true ∧ FREQ_BUTTON.isWithin x y = true)
    ∧ ¬ (TREMOR_BUTTON.isWithin x y = true ∧ INFO_BUTTON.isWithin x y = true)
    ∧ ¬ (FREQ_BUTTON.isWithin x y = true ∧ INFO_BUTTON.isWithin x y = true)
    ∧ TREMOR_BUTTON.isWithin 0 0 = false
    ∧ FREQ_BUTTON.isWithin 0 0 = false
    ∧ INFO_BUTTON.isWithin 0 0 = false := by
  have b0 := tremorButton_isWithin_iff x y
  have b1 := freqButton_isWithin_iff x y
  have b2 := infoButton_isWithin_iff x y
  have z0 : TREMOR_BUTTON.isWithin 0 0 = false := by decide
  have z1 : FREQ_BUTTON.isWithin 0 0 = false := by decide
  have z2 : INFO_BUTTON.isWithin 0 0 = false := by decide
  have d01 : ¬ (TREMOR_BUTTON.isWithin x y = true ∧ FREQ_BUTTON.isWithin x y = true) := by
    rw [b0, b1]; omega
  have d02 : ¬ (TREMOR_BUTTON.isWithin x y = true ∧ INFO_BUTTON.isWithin x y = true) := by
    rw [b0, b2]; omega
  have d12 : ¬ (FREQ_BUTTON.isWithin x y = true ∧ INFO_BUTTON.isWithin x y = true) := by
    rw [b1, b2]; omega
  refine ⟨?_, b0, b1, b2, d01, d02, d12, z0, z1, z2⟩
  simp only [GUI.update, if_true, mainGUI_states, List.foldl, GUI.menuStep, Bool.true_and]
  refine ⟨_, rfl, ?_⟩
  cases h0 : TREMOR_BUTTON.isWithin x y <;> cases h1 : FREQ_BUTTON.isWithin x y
    <;> cases h2 : INFO_BUTTON.isWithin x y
    <;> simp [h0, h1, h2, z0, z1, z2, TREMOR_DETECTION, FREQ_VIEW, INFO] at d01 d02 d12 ⊢

/-! ## Sampling window -/

theorem fill_prefix (gyro : Nat → ℚ × ℚ × ℚ) (buf0 : List ℚ) (vel0 : ℚ × ℚ × ℚ) (n : Nat)
    (h : 2 * n ≤ buf0.length) :
    ∃ st, (List.range n).foldlM (fillStep gyro)
            { fft_input := buf0, velocity_xyz := vel0, reads := 0 } = some st
      ∧ st.reads = n
      ∧ st.fft_input.length = buf0.length
      ∧ ∀ i, i < n → st.fft_input[2 * i]? = some (gyro i).1
          ∧ st.fft_input[2 * i + 1]? = some 0 := by
  induction n with
  | zero =>
    refine ⟨_, rfl, rfl, rfl, ?_⟩
    intro i hi
    exact absurd hi (Nat.not_lt_zero i)
  | succ n ih =>
    obtain ⟨st, h1, h2, h3, h4⟩ := ih (by omega)
    have hw1 : n * 2 < st.fft_input.length := by omega
    have hw2 : n * 2 + 1 < (st.fft_input.set (n * 2) (gyro n).1).length := by
      rw [List.length_set]; omega
    have hstep : fillStep gyro st n
        = some { fft_input := (st.fft_input.set (n * 2) (gyro n).1).set (n * 2 + 1) 0,
                 velocity_xyz := gyro n, reads := n + 1 } := by
      simp only [fillStep, writeSample, h2, hw1, hw2, if_true, Option.bind_eq_bind,
        Option.some_bind]
    refine ⟨{ fft_input := (st.fft_input.set (n * 2) (gyro n).1).set (n * 2 + 1) 0,
              velocity_xyz := gyro n, reads := n + 1 }, ?_, rfl, ?_, ?_⟩
    · rw [List.range_succ, List.foldlM_append, h1]
      simp only [Option.bind_eq_bind, Option.some_bind, List.foldlM, hstep, Option.pure_def]
    · simp only [List.length_set]
      exact h3
    · intro i hi
      by_cases hin : i = n
      · subst hin
        constructor
        · rw [List.getElem?_set_ne (by omega), List.getElem?_set]
          have : i * 2 = 2 * i := by omega
          simp [this]
          omega
        · rw [List.getElem?_set]
          have : i * 2 + 1 = 2 * i + 1 := by omega
          simp [this]
          omega
      · have hlt : i < n := by omega
        obtain ⟨a, b⟩ := h4 i hlt
        constructor
        · rw [List.getElem?_set_ne (by omega), List.getElem?_set_ne (by omega)]
          exact a
        · rw [List.getElem?_set_ne (by omega), List.getElem?_set_ne (by omega)]
          exact b

/-- C12: for every stream of gyroscope readings and every previous content of
the `2 * FFT_SIZE`-element transform buffer, `fillFFTWindow` succeeds, performs
exactly `FFT_SIZE = 256` reads, keeps the buffer length, and leaves element
`2i` equal to the X value of the `i`-th read and element `2i+1` equal to 0 for
every `i < 256`. -/
theorem fillFFTWindow_layout (gyro : Nat → ℚ × ℚ × ℚ) (fft_input : List ℚ)
    (velocity_xyz : ℚ × ℚ × ℚ) (h : fft_input.length = FFT_SIZE * 2) :
    ∃ st, fillFFTWindow gyro fft_input velocity_xyz = some st
      ∧ st.reads = 256
      ∧ st.fft_input.length = 512
      ∧ ∀ i, i < 256 → st.fft_input[2 * i]? = some (gyro i).1
          ∧ st.fft_input[2 * i + 1]? = some 0 := by
  have hl : fft_input.length = 512 := by simpa [FFT_SIZE] using h
  obtain ⟨st, h1, h2, h3, h4⟩ := fill_prefix gyro fft_input velocity_xyz 256 (by omega)
  exact ⟨st, h1, h2, by rw [h3, hl], h4⟩

/-- Witness of C12: starting from a buffer of 512 stale entries 7, the window
filled from the counting gyroscope holds the X value 40 at element 80 and 0 at
element 81. -/
theorem fillFFTWindow_layout_witness :
    (List.replicate 512 (7 : ℚ)).length = FFT_SIZE * 2
    ∧ ∃ st, fillFFTWindow countingGyro (List.replicate 512 7) (0, 0, 0) = some st
        ∧ st.reads = 256
        ∧ st.fft_input[80]? = some 40
        ∧ st.fft_input[81]? = some 0 := by
  have hl : (List.replicate 512 (7 : ℚ)).length = FFT_SIZE * 2 := by
    rw [List.length_replicate]
    rfl
  obtain ⟨st, h1, h2, _, h4⟩ :=
    fillFFTWindow_layout countingGyro (List.replicate 512 7) (0, 0, 0) hl
  obtain ⟨a, b⟩ := h4 40 (by decide)
  refine ⟨hl, st, h1, h2, ?_, b⟩
  rw [a]
  simp [countingGyro]

/-! ## Gyroscope decoding -/

theorem shift_or_eq (lo hi : Nat) (hlo : lo < 256) : (hi <<< 8) ||| lo = hi * 256 + lo := by
  have h := Nat.mul_add_lt_is_or (show lo < 2 ^ 8 by omega) hi
  rw [Nat.shiftLeft_eq]
  have e : (2 : Nat) ^ 8 = 256 := by decide
  rw [e] at h ⊢
  rw [Nat.mul_comm hi 256, ← h]

theorem rawAxis_eq (lo hi : Nat) (hlo : lo < 256) (hhi : hi < 256) :
    rawAxis lo hi
      = if hi * 256 + lo < 32768 then ((hi * 256 + lo : Nat) : Int)
        else ((hi * 256 + lo : Nat) : Int) - 65536 := by
  unfold rawAxis
  rw [shift_or_eq lo hi hlo, toInt32_of_small _ (by omega) (by omega)]
  unfold toInt16
  split <;> omega

theorem isBinary32_of_int16 (z : Int) (h1 : -32768 ≤ z) (h2 : z ≤ 32767) : isBinary32 (z : ℚ) :=
  ⟨z, 0, by omega, by decide, by decide, by simp⟩

/-- C17: for every pair of bytes `(lo, hi)` received for an axis, the raw value
is the signed 16-bit two's-complement reading of `hi * 256 + lo` (itself below
32768, otherwise minus 65536), hence within `-32768 .. 32767`; and each
returned reading is the `float` product of its raw value and the scaling
constant, for any rounding to `float` that keeps representable values. -/
theorem sequential_read_decoding (fl : ℚ → ℚ) (hfl : IsRounding fl) (read_buf : Nat → Nat)
    (hb : ∀ i, read_buf i < 256) :
    (∀ lo hi : Nat, lo < 256 → hi < 256 →
      rawAxis lo hi
          = (if hi * 256 + lo < 32768 then ((hi * 256 + lo : Nat) : Int)
             else ((hi * 256 + lo : Nat) : Int) - 65536)
        ∧ -32768 ≤ rawAxis lo hi ∧ rawAxis lo hi ≤ 32767)
    ∧ (sequential_read fl read_buf).1
        = fl ((rawAxis (read_buf 1) (read_buf 2) : ℚ) * SCALING_FACTOR fl)
    ∧ (sequential_read fl read_buf).2.1
        = fl ((rawAxis (read_buf 3) (read_buf 4) : ℚ) * SCALING_FACTOR fl)
    ∧ (sequential_read fl read_buf).2.2
        = fl ((rawAxis (read_buf 5) (read_buf 6) : ℚ) * SCALING_FACTOR fl) := by
  have hraw : ∀ lo hi : Nat, lo < 256 → hi < 256 →
      rawAxis lo hi
          = (if hi * 256 + lo < 32768 then ((hi * 256 + lo : Nat) : Int)
             else ((hi * 256 + lo : Nat) : Int) - 65536)
        ∧ -32768 ≤ rawAxis lo hi ∧ rawAxis lo hi ≤ 32767 := by
    intro lo hi hlo hhi
    have e := rawAxis_eq lo hi hlo hhi
    refine ⟨e, ?_, ?_⟩
    · rw [e]; split <;> omega
    · rw [e]; split <;> omega
  have hcast : ∀ lo hi : Nat, lo < 256 → hi < 256 →
      fl ((rawAxis lo hi : Int) : ℚ) = ((rawAxis lo hi : Int) : ℚ) := by
    intro lo hi hlo hhi
    obtain ⟨_, a, b⟩ := hraw lo hi hlo hhi
    exact hfl _ (isBinary32_of_int16 _ a b)
  refine ⟨hraw, ?_, ?_, ?_⟩
  · simp only [sequential_read]
    rw [hcast _ _ (hb 1) (hb 2)]
  · simp only [sequential_read]
    rw [hcast _ _ (hb 3) (hb 4)]
  · simp only [sequential_read]
    rw [hcast _ _ (hb 5) (hb 6)]

/-- Witness of C17: the bytes `0x34, 0x12` decode to 4660, `0xFF, 0xFF` to -1
and `0x00, 0x80` to -32768. -/
theorem sequential_read_decoding_witness :
    IsRounding id ∧ (∀ i, sampleReadBuf i < 256)
    ∧ rawAxis 52 18 = 4660 ∧ rawAxis 255 255 = -1 ∧ rawAxis 0 128 = -32768
    ∧ (sequential_read id sampleReadBuf).1 = 4660 * SCALING_FACTOR id := by
  have hid : IsRounding id := fun _ _ => rfl
  have hb : ∀ i, sampleReadBuf i < 256 := by
    intro i
    unfold sampleReadBuf
    split <;> decide
  obtain ⟨h1, h2, _, _⟩ := sequential_read_decoding id hid sampleReadBuf hb
  have e1 : rawAxis 52 18 = 4660 := by
    rw [(h1 52 18 (by decide) (by decide)).1]; decide
  have e2 : rawAxis 255 255 = -1 := by
    rw [(h1 255 255 (by decide) (by decide)).1]; decide
  have e3 : rawAxis 0 128 = -32768 := by
    rw [(h1 0 128 (by decide) (by decide)).1]; decide
  refine ⟨hid, hb, e1, e2, e3, ?_⟩
  rw [h2]
  have : rawAxis (sampleReadBuf 1) (sampleReadBuf 2) = 4660 := e1
  rw [this]
  simp

end TrmrGlv
